import Mathlib

/-!
Verification development for the NN_Key multi-function key-handling module
(src/NN_Key.c, src/NN_Key.h).

The C module is shallowly embedded: every C function that the verified
properties depend on is translated into an executable Lean definition of the
same name (leading underscores of the internal static functions are kept).
Machine integers are modelled as `Nat` with explicit reduction where the C
type forces wrap-around:

* `uint32_t` tick arithmetic (`tick - last`) becomes `sub32`;
* the 4-bit bitfields `multi_count`, `combo_value_excepted`,
  `combo_value_now` are written modulo 16;
* the `uint8_t` mask `callback_mask` is written modulo 256.

Callback function pointers are not observable values; a callback slot is
modelled by whether it is non-NULL (`Bool`), and every invocation the C code
performs is recorded in an event log (`LogEntry`) instead of calling through
the pointer.  Keys registered in the global `_nn_key_list` are modelled as a
`List NNKey`; combo member pointers become indices into that list, with the
NULL pointer modelled as `none`.

The C enum `nn_key_state_t` stores exactly the six states below in a 3-bit
bitfield.  Bit patterns 6 and 7, which the C `default:` branch defensively
resets, are unrepresentable in the embedding; no reachable code path produces
them.
-/

/- ========================= macros from NN_Key.h ========================= -/

def KEY_MAX_KEY_NUMBER : Nat := 20

def KEY_MAX_COMBO_NUMBER : Nat := 20

def KEY_DEBOUNCE_TIME : Nat := 20

def KEY_LONG_PRESS_TIME : Nat := 500

def KEY_LONG_PRESS_ALWS : Nat := 1500

def KEY_MULTI_PRESS_TIME : Nat := 300

def KEY_LONG_PRESS_ALWS_CB : Nat := 50

def KEY_MAX_COMBO_MEMBER : Nat := 4

def KEY_COMBO_WINDOW : Nat := 300

/-- Modulus of `uint32_t`. -/
def U32 : Nat := 4294967296

/-- `uint32_t` subtraction `a - b` (wrap-aware, as required for tick math). -/
def sub32 (a b : Nat) : Nat := (a + (U32 - b % U32)) % U32

/-- In-place update of the `i`-th element of a list (pointer write through
`_nn_key_list[i]` / `combo_member[j]`). Out of range: no effect. -/
def modifyNth (f : α → α) : Nat → List α → List α
  | _, [] => []
  | 0, a :: as => f a :: as
  | n + 1, a :: as => a :: modifyNth f n as

/- ========================= enums ========================= -/

/-- `nn_key_state_t`. -/
inductive KeyState
  | init
  | released
  | pressed
  | longPressed
  | longPressedAlws
  | multiPressed
deriving DecidableEq

/-- `nn_key_event_t` (`KEY_EVENT_MAX` is only an array bound, not a value). -/
inductive KeyEvent
  | evInit
  | evPressed
  | evLongPressed
  | evLongPressedAlws
  | evDouble
  | evTriple
  | evMulti
deriving DecidableEq

/-- Numeric value of a `nn_key_event_t` constant (used as shift amount and
array index in the C code). -/
def evIdx : KeyEvent → Nat
  | .evInit => 0
  | .evPressed => 1
  | .evLongPressed => 2
  | .evLongPressedAlws => 3
  | .evDouble => 4
  | .evTriple => 5
  | .evMulti => 6

/- ========================= data structures ========================= -/

/-- `nn_key_t`.  The nested structs `key_paras`, `key_flags` and
`key_multi_paras` are flattened; field names are kept.  `callbacks` holds,
for each of the 7 event slots, whether `callbacks[i].func` is non-NULL. -/
structure NNKey where
  key_last_time : Nat
  debounce_time : Nat
  long_time : Nat
  long_alws_time : Nat
  multi_time : Nat
  state : KeyState
  event : KeyEvent
  is_member : Bool
  lock_flag : Bool
  multi_max : Nat
  multi_count : Nat
  callback_mask : Nat
  callbacks : List Bool
deriving DecidableEq

/-- `nn_comb_t`.  `combo_member` holds key indices into the registered key
list (`none` = NULL pointer);  `combo_has_cb` records whether
`combo_cb.func.callback_comb` is non-NULL. -/
structure NNComb where
  combo_value_excepted : Nat
  combo_value_now : Nat
  combo_mem_first : Nat
  combo_window : Nat
  combo_member_nbr : Nat
  combo_trigger : Bool
  combo_member : List (Option Nat)
  combo_has_cb : Bool
deriving DecidableEq

/-- One callback invocation performed by the module, with the tick at which
it happened. -/
inductive LogEntry
  | keyCb (tick : Nat) (keyIdx : Nat) (ev : KeyEvent)
  | comboCb (tick : Nat) (comboIdx : Nat)
deriving DecidableEq

/-- The global registration state: `_nn_key_list`/`_nn_key_num` and
`_nn_combo_list`/`_nn_combo_num` (counts are the list lengths). -/
structure Registry where
  keys : List NNKey
  combos : List NNComb
deriving DecidableEq

/-- Whole-system state: registered keys and combos plus the static local
`LastTick` of `_NN_Key_Event` (shared by all keys). -/
structure Sys where
  keys : List NNKey
  combos : List NNComb
  lastTick : Nat
deriving DecidableEq

def emptyRegistry : Registry := { keys := [], combos := [] }

/- ========================= registration functions ========================= -/

/-- `NN_Key_Init` on a non-NULL key: the fully initialised `nn_key_t`. -/
def NN_Key_Init : NNKey :=
  { key_last_time := 0
    debounce_time := KEY_DEBOUNCE_TIME
    long_time := KEY_LONG_PRESS_TIME
    long_alws_time := KEY_LONG_PRESS_ALWS
    multi_time := KEY_MULTI_PRESS_TIME
    state := .init
    event := .evInit
    is_member := false
    lock_flag := false
    multi_max := 4
    multi_count := 0
    callback_mask := 0
    callbacks := List.replicate 7 false }

/-- `NN_Key_Add(key, id, read_func)`: `key`/`read_func` model the NULL-ness
of the two pointers. -/
def NN_Key_Add (reg : Registry) (key : Option Unit) (read_fn : Option Unit) :
    Bool × Registry :=
  if key = none ∨ read_fn = none ∨ KEY_MAX_KEY_NUMBER ≤ reg.keys.length then
    (false, reg)
  else
    (true, { reg with keys := reg.keys ++ [NN_Key_Init] })

/-- `NN_Key_SetPara` (non-NULL key): a zero argument leaves the parameter
unchanged; `multi_max` is clamped to 15 (4-bit bitfield). -/
def NN_Key_SetPara (k : NNKey) (debounce_time long_time long_alws_time
    multi_time : Nat) (multi_max : Nat) : Bool × NNKey :=
  let k := if debounce_time ≠ 0 then { k with debounce_time := debounce_time } else k
  let k := if long_time ≠ 0 then { k with long_time := long_time } else k
  let k := if long_alws_time ≠ 0 then { k with long_alws_time := long_alws_time } else k
  let k := if multi_time ≠ 0 then { k with multi_time := multi_time } else k
  let k := if multi_max ≠ 0 then
      { k with multi_max := if 15 < multi_max then 15 else multi_max } else k
  (true, k)

/-- `NN_Key_SetCb(key, event, cb, user_data)` on a non-NULL key.  `cb = none`
models a NULL callback pointer: the function rejects it up front, so the
`else` branch that would clear the mask bit is dead code in the C source. -/
def NN_Key_SetCb (k : NNKey) (ev : KeyEvent) (cb : Option Unit) :
    Bool × NNKey :=
  if cb = none then (false, k)
  else
    (true,
      { k with
        callbacks := k.callbacks.set (evIdx ev) true
        callback_mask := (k.callback_mask ||| (1 <<< evIdx ev)) % 256 })

/-- `NN_Key_DeleteCb(key, event)` on a non-NULL key:
`callback_mask &= ~(0x01 << event)` on a `uint8_t`. -/
def NN_Key_DeleteCb (k : NNKey) (ev : KeyEvent) : Bool × NNKey :=
  (true,
    { k with
      callbacks := k.callbacks.set (evIdx ev) false
      callback_mask := k.callback_mask &&& (255 ^^^ (1 <<< evIdx ev)) })

/-- `NN_Combo_Add(comb, id, mem_nbr, member1, member2, ...)`.  `comb` models
the NULL-ness of the combo pointer, `member1`/`member2`/`rest` are key
indices (`none` = NULL).  The variadic tail loop runs `mem_nbr - 2` times;
in C the bound is computed in `int`, so for `mem_nbr < 2` it is negative and
the loop does not run, which `Nat` subtraction reproduces.  Note the two C
checks `mem_nbr > KEY_MAX_COMBO_MEMBER` and
`_nn_combo_num > KEY_MAX_COMBO_NUMBER` (the latter lets a 21st combo be
stored: `_nn_combo_list[20]` is out of bounds in C; the model list simply
grows). -/
def NN_Combo_Add (reg : Registry) (comb : Option Unit) (mem_nbr : Nat)
    (member1 member2 : Option Nat) (rest : List (Option Nat)) :
    Bool × Registry :=
  if KEY_MAX_COMBO_MEMBER < mem_nbr ∨ KEY_MAX_COMBO_NUMBER < reg.combos.length then
    (false, reg)
  else if comb = none ∨ member1 = none ∨ member2 = none then
    (false, reg)
  else
    let m1 := member1.getD 0
    let m2 := member2.getD 0
    let c0 : NNComb :=
      { combo_value_excepted :=
          (List.range mem_nbr).foldl (fun a i => (a ||| (1 <<< i)) % 16) 0
        combo_value_now := 0
        combo_mem_first := 0
        combo_window := KEY_COMBO_WINDOW
        combo_member_nbr := mem_nbr
        combo_trigger := false
        combo_member := List.replicate KEY_MAX_COMBO_MEMBER none
        combo_has_cb := false }
    let c1 := { c0 with combo_member := (c0.combo_member.set 0 (some m1)).set 1 (some m2) }
    let ks1 := modifyNth (fun k => { k with is_member := true }) m1
      (modifyNth (fun k => { k with is_member := true }) m2 reg.keys)
    let s2 := (List.range (mem_nbr - 2)).foldl
      (fun (p : NNComb × List NNKey) i =>
        match rest.getD i none with
        | none => p
        | some m =>
          ({ p.1 with combo_member := p.1.combo_member.set (2 + i) (some m) },
            modifyNth (fun k => { k with is_member := true }) m p.2))
      (c1, ks1)
    (true, { keys := s2.2, combos := reg.combos ++ [s2.1] })

/-- `NN_Combo_SetCb(combo, cb, para)` on a non-NULL combo. -/
def NN_Combo_SetCb (c : NNComb) (cb : Option Unit) : Bool × NNComb :=
  if cb = none then (false, c)
  else (true, { c with combo_has_cb := true })

/-- `NN_Combo_SetWindowTime(combo, time_ms)` on a non-NULL combo
(`time_ms > UINT16_MAX` is unreachable for a `uint16_t` argument but the
check is kept). -/
def NN_Combo_SetWindowTime (c : NNComb) (time_ms : Nat) : Bool × NNComb :=
  if 65535 < time_ms then (false, c)
  else (true, { c with combo_window := time_ms })

/- ========================= state machine ========================= -/

/-- `_NN_Key_StateMachine(key, tick)`.  `key_val` is the value returned by
`key->key_read()` at this tick.  A faithful translation of the `switch`:
branches that perform no assignment return `k` unchanged. -/
def _NN_Key_StateMachine (k : NNKey) (tick : Nat) (key_val : Bool) : NNKey :=
  let diff_tick := sub32 tick k.key_last_time
  match k.state with
  | .init =>
    if key_val = true then
      { k with state := .pressed, key_last_time := tick }
    else
      { k with state := .released, key_last_time := tick, event := .evInit }
  | .released =>
    if key_val = true ∧ k.debounce_time ≤ diff_tick then
      { k with state := .pressed, key_last_time := tick, event := .evInit }
    else if ¬(key_val = true) then
      { k with state := .released }
    else k
  | .pressed =>
    if ¬(key_val = true) then
      if k.long_time ≤ diff_tick then
        { k with event := .evLongPressed, state := .released,
                 key_last_time := tick, multi_count := 0 }
      else
        { k with state := .multiPressed,
                 multi_count := (k.multi_count + 1) % 16,
                 key_last_time := tick }
    else if k.long_time ≤ diff_tick ∧ diff_tick < k.long_alws_time ∧ 0 < k.long_alws_time then
      { k with state := .longPressed }
    else if k.long_alws_time ≤ diff_tick ∧ 0 < k.long_alws_time then
      { k with state := .longPressedAlws, event := .evLongPressedAlws,
               key_last_time := tick }
    else k
  | .longPressed =>
    if ¬(key_val = true) then
      { k with event := .evLongPressed, state := .released,
               key_last_time := tick, multi_count := 0 }
    else if k.long_alws_time ≤ diff_tick ∧ 0 < k.long_alws_time then
      { k with state := .longPressedAlws, event := .evLongPressedAlws,
               key_last_time := tick }
    else k
  | .longPressedAlws =>
    if ¬(key_val = true) then
      { k with key_last_time := tick, state := .released, event := .evInit,
               multi_count := 0 }
    else
      { k with event := .evLongPressedAlws }
  | .multiPressed =>
    if key_val = true ∧ k.debounce_time ≤ diff_tick then
      { k with state := .pressed, key_last_time := tick }
    else if ¬(key_val = true) ∧ k.multi_time ≤ diff_tick then
      let k :=
        if k.multi_count = 1 then { k with event := .evPressed }
        else if k.multi_count = 2 then { k with event := .evDouble }
        else if k.multi_count = 3 then { k with event := .evTriple }
        else if 3 < k.multi_count then { k with event := .evMulti }
        else k
      { k with state := .released, key_last_time := tick, multi_count := 0 }
    else k

/- ========================= event dispatcher ========================= -/

/-- `_NN_Key_Event(key, tick)` for the key at index `i` of the key list,
with the static `LastTick` passed in and returned explicitly.  Returns the
updated key, the updated `LastTick`, and the callback invocations made. -/
def _NN_Key_Event (k : NNKey) (i tick lastTick : Nat) :
    NNKey × Nat × List LogEntry :=
  if k.event = .evInit then (k, lastTick, [])
  else
    let ev := k.event
    if k.callback_mask.testBit (evIdx ev) ∧ k.callbacks.getD (evIdx ev) false = true then
      if ev = .evLongPressedAlws then
        if KEY_LONG_PRESS_ALWS_CB ≤ sub32 tick lastTick then
          (k, tick, [.keyCb tick i ev])
        else
          (k, lastTick, [])
      else
        ({ k with event := .evInit }, lastTick, [.keyCb tick i ev])
    else
      if ¬(k.event = .evLongPressedAlws) then
        ({ k with event := .evInit }, lastTick, [])
      else
        (k, lastTick, [])

/- ========================= combo engine ========================= -/

/-- State of the member scan of one combo: the fields of the combo the loop
writes (`combo_mem_first`, `combo_value_now`, `combo_trigger`) plus the
local `combo_active`. -/
structure CLoop where
  first : Nat
  now : Nat
  trigger : Bool
  active : Bool
deriving DecidableEq

/-- Body of the member loop of `_NN_Combo_Process` for member slot `j`.
A `none` member slot is a NULL pointer in C (never dereferenced on
well-formed registrations); the model skips it. -/
def _NN_Combo_MemberScan (tick window excepted : Nat) (keys : List NNKey)
    (mems : List (Option Nat)) (st : CLoop) (j : Nat) : CLoop :=
  match mems.getD j none with
  | none => st
  | some mi =>
    if (keys.getD mi NN_Key_Init).event = .evPressed then
      let st :=
        if st.first = 0 then
          { st with first := tick, now := (1 <<< j) % 16, active := true }
        else if sub32 tick st.first ≤ window then
          { st with now := (st.now ||| (1 <<< j)) % 16 }
        else st
      if st.now = excepted then
        { st with trigger := true, now := 0, first := 0 }
      else st
    else st

/-- Set `lock_flag := true` on every member slot (the lock loop of
`_NN_Combo_Process`). -/
def lockMembers (mems : List (Option Nat)) (nbr : Nat) (keys : List NNKey) :
    List NNKey :=
  (List.range nbr).foldl
    (fun ks j =>
      match mems.getD j none with
      | none => ks
      | some mi => modifyNth (fun k => { k with lock_flag := true }) mi ks)
    keys

/-- Reset every member key's event and lock (the trigger-handling loop). -/
def clearMembers (mems : List (Option Nat)) (nbr : Nat) (keys : List NNKey) :
    List NNKey :=
  (List.range nbr).foldl
    (fun ks j =>
      match mems.getD j none with
      | none => ks
      | some mi =>
        modifyNth (fun k => { k with event := .evInit, lock_flag := false }) mi ks)
    keys

/-- Set `lock_flag := false` on every member slot (the expiry loop). -/
def unlockMembers (mems : List (Option Nat)) (nbr : Nat) (keys : List NNKey) :
    List NNKey :=
  (List.range nbr).foldl
    (fun ks j =>
      match mems.getD j none with
      | none => ks
      | some mi => modifyNth (fun k => { k with lock_flag := false }) mi ks)
    keys

/-- The body of `_NN_Combo_Process`'s outer loop for the combo at index `ci`:
member scan, lock loop, trigger handling, window-timeout handling. -/
def _NN_Combo_ProcessOne (tick ci : Nat) (c : NNComb) (keys : List NNKey) :
    NNComb × List NNKey × List LogEntry :=
  let st0 : CLoop :=
    { first := c.combo_mem_first, now := c.combo_value_now,
      trigger := c.combo_trigger, active := 0 < c.combo_mem_first }
  let st := (List.range c.combo_member_nbr).foldl
    (_NN_Combo_MemberScan tick c.combo_window c.combo_value_excepted keys c.combo_member)
    st0
  let cA := { c with combo_mem_first := st.first, combo_value_now := st.now,
                     combo_trigger := st.trigger }
  let keys1 := if st.active then lockMembers c.combo_member c.combo_member_nbr keys else keys
  let res :=
    if cA.combo_trigger = true then
      ({ cA with combo_trigger := false },
        clearMembers c.combo_member c.combo_member_nbr keys1,
        if c.combo_has_cb then [LogEntry.comboCb tick ci] else [])
    else (cA, keys1, ([] : List LogEntry))
  let cB := res.1
  let keys2 := res.2.1
  if cB.combo_mem_first ≠ 0 ∧ cB.combo_window < sub32 tick cB.combo_mem_first then
    ({ cB with combo_mem_first := 0, combo_value_now := 0 },
      unlockMembers c.combo_member c.combo_member_nbr keys2, res.2.2)
  else (cB, keys2, res.2.2)

/-- `_NN_Combo_Process(tick)`: all registered combos in registration order,
threading the shared key list. -/
def _NN_Combo_Process (tick : Nat) : Nat → List NNComb → List NNKey →
    List NNComb × List NNKey × List LogEntry
  | _, [], ks => ([], ks, [])
  | i, c :: cs, ks =>
    let r1 := _NN_Combo_ProcessOne tick i c ks
    let r2 := _NN_Combo_Process tick (i + 1) cs r1.2.1
    (r1.1 :: r2.1, r2.2.1, r1.2.2 ++ r2.2.2)

/- ========================= handler ========================= -/

/-- The state-machine loop of `NN_Key_Handler`: run `_NN_Key_StateMachine`
on every key; `raws i` is what key `i`'s `key_read()` returns this tick. -/
def smAll (tick : Nat) (raws : Nat → Bool) : Nat → List NNKey → List NNKey
  | _, [] => []
  | i, k :: ks => _NN_Key_StateMachine k tick (raws i) :: smAll tick raws (i + 1) ks

/-- The dispatch loop of `NN_Key_Handler`: skip locked keys, run
`_NN_Key_Event` on the rest, threading the static `LastTick`. -/
def dispatchAll (tick : Nat) : Nat → Nat → List NNKey →
    List NNKey × Nat × List LogEntry
  | _, lt, [] => ([], lt, [])
  | i, lt, k :: ks =>
    if k.lock_flag = true then
      let r := dispatchAll tick (i + 1) lt ks
      (k :: r.1, r.2.1, r.2.2)
    else
      let r1 := _NN_Key_Event k i tick lt
      let r := dispatchAll tick (i + 1) r1.2.1 ks
      (r1.1 :: r.1, r.2.1, r1.2.2 ++ r.2.2)

/-- `NN_Key_Handler(tick)`: reset the lock of every combo-member key, run
every key's state machine, process combos, then dispatch unlocked keys'
events.  (The C `bool` result is `true` unless a key pointer is NULL, which
the embedding cannot represent; it is omitted.) -/
def NN_Key_Handler (raws : Nat → Bool) (sys : Sys) (tick : Nat) :
    Sys × List LogEntry :=
  let ks0 := sys.keys.map fun k =>
    if k.is_member = true then { k with lock_flag := false } else k
  let ks1 := smAll tick raws 0 ks0
  let rc := _NN_Combo_Process tick 0 sys.combos ks1
  let rd := dispatchAll tick 0 sys.lastTick rc.2.1
  ({ keys := rd.1, combos := rc.1, lastTick := rd.2.1 }, rc.2.2 ++ rd.2.2)

/-- Repeated periodic invocation of `NN_Key_Handler`; `raws t i` is the raw
reading of key `i` at tick `t`. -/
def runTicks (raws : Nat → Nat → Bool) : Sys → List Nat → Sys × List LogEntry
  | sys, [] => (sys, [])
  | sys, t :: ts =>
    let r1 := NN_Key_Handler (raws t) sys t
    let r2 := runTicks raws r1.1 ts
    (r2.1, r1.2 ++ r2.2)

/-- Run only the state machine of a single key over a tick sequence (no
dispatch, no combos) — used to observe raw state-machine behaviour. -/
def runKey (raw : Nat → Bool) : NNKey → List Nat → NNKey
  | k, [] => k
  | k, t :: ts => runKey raw (_NN_Key_StateMachine k t (raw t)) ts

/- ========================= log observations ========================= -/

/-- Is this entry a combo-callback invocation? -/
def isComboEntry : LogEntry → Bool
  | .comboCb _ _ => true
  | _ => false

/-- Is this entry a single-press key-callback invocation (for any key)? -/
def isPressEntry : LogEntry → Bool
  | .keyCb _ _ ev => ev = .evPressed
  | _ => false

/-- Is this entry a continuous-long-press key-callback invocation? -/
def isAlwsEntry : LogEntry → Bool
  | .keyCb _ _ ev => ev = .evLongPressedAlws
  | _ => false

/-- Is this entry a continuous-long-press invocation for key `i`? -/
def isAlwsEntryOf (i : Nat) : LogEntry → Bool
  | .keyCb _ j ev => j = i ∧ ev = .evLongPressedAlws
  | _ => false

/-- The ticks of all continuous-long-press invocations, in log order. -/
def alwsTicks (lg : List LogEntry) : List Nat :=
  lg.filterMap fun e =>
    match e with
    | .keyCb t _ ev => if ev = .evLongPressedAlws then some t else none
    | .comboCb _ _ => none

/-- The key at index `i` of a system state. -/
def getKey (s : Sys) (i : Nat) : NNKey := s.keys.getD i NN_Key_Init

/-- The combo at index `i` of a system state. -/
def getComb (s : Sys) (i : Nat) : NNComb := s.combos.getD i
  { combo_value_excepted := 0, combo_value_now := 0, combo_mem_first := 0,
    combo_window := 0, combo_member_nbr := 0, combo_trigger := false,
    combo_member := [], combo_has_cb := false }

/- ========================= concrete scenarios ========================= -/

/-- Registry with two default keys A (index 0) and B (index 1). -/
def regAB : Registry :=
  (NN_Key_Add (NN_Key_Add emptyRegistry (some ()) (some ())).2 (some ()) (some ())).2

/-- `regAB` plus one 2-member combo over A and B (window 300 ms). -/
def regABC : Registry := (NN_Combo_Add regAB (some ()) 2 (some 0) (some 1) []).2

/-- The system for the combo scenarios: press callbacks registered on both
keys, combo callback registered, `LastTick = 0`. -/
def sysAB : Sys :=
  { keys := regABC.keys.map fun k => (NN_Key_SetCb k .evPressed (some ())).2
    combos := regABC.combos.map fun c => (NN_Combo_SetCb c (some ())).2
    lastTick := 0 }

/-- Raw inputs for the in-window combo scenario: A pressed during
[0, 10) ms, B pressed during [250, 260) ms. -/
def rawsC2 (t : Nat) (i : Nat) : Bool :=
  if i = 0 then decide (t < 10) else decide (250 ≤ t ∧ t < 260)

/-- Raw inputs for the out-of-window combo scenario: A pressed during
[0, 10) ms, B pressed during [400, 410) ms. -/
def rawsC3 (t : Nat) (i : Nat) : Bool :=
  if i = 0 then decide (t < 10) else decide (400 ≤ t ∧ t < 410)

/-- Handler ticks 0, 10, 20, … (the recommended 10 ms polling cadence). -/
def ticksTo (n : Nat) : List Nat := (List.range n).map (· * 10)

/-- Full run of the in-window scenario (ticks 0 … 600). -/
def runC2 : Sys × List LogEntry := runTicks rawsC2 sysAB (ticksTo 61)

/-- Full run of the out-of-window scenario (ticks 0 … 1100). -/
def runC3 : Sys × List LogEntry := runTicks rawsC3 sysAB (ticksTo 111)

/-- Out-of-window scenario stopped after tick 610 (window still open). -/
def s610 : Sys := (runTicks rawsC3 sysAB (ticksTo 62)).1

/-- The single handler call at tick 620, in which the window expires. -/
def call620 : Sys × List LogEntry := NN_Key_Handler (rawsC3 620) s610 620

/-- Five short presses at t = 0, 50, 100, 150, 200 (10 ms each). -/
def raw5 (t : Nat) : Bool := decide (t < 250 ∧ t % 50 < 10)

/-- Sixteen short presses at t = 0, 50, …, 750 (10 ms each). -/
def raw16 (t : Nat) : Bool := decide (t < 760 ∧ t % 50 < 10)

/-- A key held in the continuous-long-press state with its
continuous-long-press callback registered. -/
def kAlws : NNKey :=
  { (NN_Key_SetCb NN_Key_Init .evLongPressedAlws (some ())).2 with
    state := .longPressedAlws, event := .evLongPressedAlws }

/-- Two such keys, no combos: the shared-`LastTick` starvation scenario. -/
def sysD : Sys := { keys := [kAlws, kAlws], combos := [], lastTick := 0 }

/-- 2-second run of the starvation scenario with both keys held. -/
def runD : Sys × List LogEntry := runTicks (fun _ _ => true) sysD (ticksTo 21)

/-- Key X for the repeat-call scenario: a combo member physically held past
its continuous-long-press threshold (thresholds 20/20/50 set via
`NN_Key_SetPara`), currently locked, continuous event pending. -/
def kX : NNKey :=
  { (NN_Key_SetPara NN_Key_Init 20 20 50 300 0).2 with
    state := .longPressedAlws
    event := .evLongPressedAlws
    is_member := true
    lock_flag := true
    key_last_time := 400 }

/-- Key Y for the repeat-call scenario: released, its simple-press event
pending, locked by the open combo window. -/
def kY : NNKey :=
  { NN_Key_Init with
    state := .released
    event := .evPressed
    is_member := true
    lock_flag := true
    key_last_time := 350 }

/-- The combo over X and Y with X's bit already accumulated and the window
opened at tick 300. -/
def cXY : NNComb :=
  { combo_value_excepted := 3
    combo_value_now := 1
    combo_mem_first := 300
    combo_window := 300
    combo_member_nbr := 2
    combo_trigger := false
    combo_member := [some 0, some 1, none, none]
    combo_has_cb := true }

/-- System state for the repeat-call scenario. -/
def s9 : Sys := { keys := [kX, kY], combos := [cXY], lastTick := 0 }

/-- Raw readings of the repeat-call scenario: X held, Y released. -/
def raws9 (i : Nat) : Bool := i = 0

/-- State after the first `NN_Key_Handler` call at tick 450. -/
def s9a : Sys := (NN_Key_Handler raws9 s9 450).1

/-- State after a second, identical `NN_Key_Handler` call at tick 450. -/
def s9b : Sys := (NN_Key_Handler raws9 s9a 450).1

/-- A key whose simple-press event is pending at tick 0 (for the tick-0
window-start anomaly). -/
def k8 : NNKey := { NN_Key_Init with event := .evPressed }

/-- A fresh 2-member combo (as built by `NN_Combo_Add`) for the tick-0
anomaly. -/
def c8 : NNComb :=
  { combo_value_excepted := 3
    combo_value_now := 0
    combo_mem_first := 0
    combo_window := 300
    combo_member_nbr := 2
    combo_trigger := false
    combo_member := [some 0, some 1, none, none]
    combo_has_cb := false }

/-- Registry with 20 registered combos over keys 0 and 1 (the configured
maximum `KEY_MAX_COMBO_NUMBER`). -/
def reg20 : Registry :=
  (List.range 20).foldl
    (fun r _ => (NN_Combo_Add r (some ()) 2 (some 0) (some 1) []).2) regAB

/-- A key with a simple-press callback registered. -/
def k7 : NNKey := (NN_Key_SetCb NN_Key_Init .evPressed (some ())).2

/-- `k7` after `NN_Key_DeleteCb` for the simple-press event. -/
def k7d : NNKey := (NN_Key_DeleteCb k7 .evPressed).2

/-- A key sitting in `Released` since tick 0 with default parameters. -/
def kRel : NNKey := _NN_Key_StateMachine NN_Key_Init 0 false

/- ========================= invariants / well-formedness ========================= -/

/-- Every bit of `a` is a bit of `b` (`a` is a bitmask subset of `b`). -/
def bitSubset (a b : Nat) : Prop := a &&& b = a

/-- The aspects of key parameters guaranteed by registration: thresholds
start at the nonzero defaults and `NN_Key_SetPara` ignores zero arguments. -/
def wfKeyParas (k : NNKey) : Prop := 1 ≤ k.long_time ∧ 1 ≤ k.multi_time

/-- The key indices stored in a combo's member slots. -/
def memIdxs (c : NNComb) : List Nat :=
  (List.range c.combo_member_nbr).filterMap fun j => c.combo_member.getD j none

/-- Record update of only the `event` and `lock_flag` fields — the only key
fields the combo engine and the dispatcher ever write. -/
def withEvLock (k : NNKey) (e : KeyEvent) (l : Bool) : NNKey :=
  { k with event := e, lock_flag := l }

/-- A second state-machine run at an unchanged tick and raw reading is the
identity on the key — except that a key held in the continuous-long-press
state re-raises its continuous event — no matter how the combo engine and
dispatcher rewrote `event`/`lock_flag` in between. -/
def smStable (k : NNKey) (tick : Nat) (raw : Bool) : Prop :=
  ∀ e l, _NN_Key_StateMachine (withEvLock k e l) tick raw =
    if k.state = KeyState.longPressedAlws ∧ raw = true then
      withEvLock k KeyEvent.evLongPressedAlws l
    else withEvLock k e l

/-- Steady-state invariant of one combo against the current key list at an
unchanged tick: reprocessing the combo changes neither the combo nor any
key event and fires nothing (it at most re-applies member locks). -/
def comboStable (tick : Nat) (c : NNComb) (keys : List NNKey) : Prop :=
  c.combo_trigger = false ∧
  (c.combo_mem_first = 0 →
    ∀ j, j < c.combo_member_nbr → ∀ mi, c.combo_member.getD j none = some mi →
      (keys.getD mi NN_Key_Init).event ≠ KeyEvent.evPressed) ∧
  (c.combo_mem_first ≠ 0 →
    ¬ c.combo_window < sub32 tick c.combo_mem_first ∧
    (∀ j, j < c.combo_member_nbr → ∀ mi, c.combo_member.getD j none = some mi →
      (keys.getD mi NN_Key_Init).event = KeyEvent.evPressed →
      (c.combo_value_now ||| (1 <<< j)) % 16 = c.combo_value_now) ∧
    ((∃ j, j < c.combo_member_nbr ∧ ∃ mi, c.combo_member.getD j none = some mi ∧
        (keys.getD mi NN_Key_Init).event = KeyEvent.evPressed) →
      c.combo_value_now ≠ c.combo_value_excepted))

/-- Post-state of one combo after a handler call, as needed to show the
next call at the same tick is quiescent: trigger consumed; if the window is
closed every member's press is either gone or unlocked (so the dispatcher
consumes it this call); if the window is open it has not out-lived its
duration, every pending member press is already folded into the accumulated
bitmask, and the bitmask is not yet complete. -/
def comboPost (tick : Nat) (c : NNComb) (keys : List NNKey) : Prop :=
  c.combo_trigger = false ∧
  (c.combo_mem_first = 0 →
    ∀ j, j < c.combo_member_nbr → ∀ mi, c.combo_member.getD j none = some mi →
      (keys.getD mi NN_Key_Init).event ≠ KeyEvent.evPressed ∨
      (keys.getD mi NN_Key_Init).lock_flag = false) ∧
  (c.combo_mem_first ≠ 0 →
    ¬ c.combo_window < sub32 tick c.combo_mem_first ∧
    (∀ j, j < c.combo_member_nbr → ∀ mi, c.combo_member.getD j none = some mi →
      (keys.getD mi NN_Key_Init).event = KeyEvent.evPressed →
      (c.combo_value_now ||| (1 <<< j)) % 16 = c.combo_value_now) ∧
    ((∃ j, j < c.combo_member_nbr ∧ ∃ mi, c.combo_member.getD j none = some mi ∧
        (keys.getD mi NN_Key_Init).event = KeyEvent.evPressed) →
      c.combo_value_now ≠ c.combo_value_excepted))

/-- The possible net effects of combo processing on a single key within one
call: untouched, locked, unlocked, or event-cleared-and-unlocked. -/
def keyLockEv (a b : NNKey) : Prop :=
  b = a ∨ b = { a with lock_flag := true } ∨ b = { a with lock_flag := false } ∨
  b = { a with event := KeyEvent.evInit, lock_flag := false }

/-- Relation between a key after the first call and after the second call
of the repeat-call theorem: no state transition, no timestamp or counter
change, and the pending event is unchanged except that a key held in the
continuous-long-press state may re-raise its continuous event. -/
def keyRel (a b : NNKey) : Prop :=
  b.state = a.state ∧ b.key_last_time = a.key_last_time ∧
  b.multi_count = a.multi_count ∧
  (b.event = a.event ∨
    (a.event = KeyEvent.evInit ∧ b.event = KeyEvent.evLongPressedAlws ∧
      a.state = KeyState.longPressedAlws))

/-- Two combos sharing no member key index. -/
def comboDisj (c1 c2 : NNComb) : Prop := ∀ m, m ∈ memIdxs c1 → m ∉ memIdxs c2

/-- The aspects of a combo guaranteed by `NN_Combo_Add`: the member count
fits the member-slot array and the accumulated bit pattern fits its 4-bit
field. -/
def wfComb (c : NNComb) : Prop :=
  c.combo_member_nbr ≤ KEY_MAX_COMBO_MEMBER ∧ c.combo_value_now < 16

/-- Well-formed system for the repeat-call analysis: registration-guaranteed
key parameters and combo fields, and no key is a member of two registered
combos (the spec's minimal design: a member key belongs to exactly one
combo). -/
def wfSys (sys : Sys) : Prop :=
  (∀ k ∈ sys.keys, wfKeyParas k) ∧ (∀ c ∈ sys.combos, wfComb c) ∧
  List.Pairwise comboDisj sys.combos

/-- The default combo record (what `getComb` returns out of range). -/
def defComb : NNComb :=
  { combo_value_excepted := 0, combo_value_now := 0, combo_mem_first := 0,
    combo_window := 0, combo_member_nbr := 0, combo_trigger := false,
    combo_member := [], combo_has_cb := false }

/-- Does member slot `j` name a key whose pending event is the single-press
event? (the member scan's test). -/
def pressedSlot (keys : List NNKey) (mems : List (Option Nat)) (j : Nat) : Bool :=
  match mems.getD j none with
  | none => false
  | some mi => decide ((keys.getD mi NN_Key_Init).event = KeyEvent.evPressed)

/-- Common shape of the three member-maintenance loops (`lockMembers`,
`clearMembers`, `unlockMembers`): apply `f` to every key named by a member
slot. -/
def memFold (f : NNKey → NNKey) (mems : List (Option Nat)) (nbr : Nat)
    (keys : List NNKey) : List NNKey :=
  (List.range nbr).foldl
    (fun ks j =>
      match mems.getD j none with
      | none => ks
      | some mi => modifyNth f mi ks)
    keys

/-- Net effect of combo processing on a key at a fixed tick once the system
is quiescent: at most the member lock is (re)applied. -/
def lockOnly (a b : NNKey) : Prop :=
  b = a ∨ b = { a with lock_flag := true }

/-- A key the dispatcher will not fire a non-continuous callback for:
locked, or holding no pending event other than the continuous one. -/
def quietKey (k : NNKey) : Prop :=
  k.lock_flag = true ∨ k.event = KeyEvent.evInit ∨
    k.event = KeyEvent.evLongPressedAlws

/-- The member scan of `_NN_Combo_ProcessOne` stopped after the first `n`
member slots. -/
def scanFoldN (tick window exc : Nat) (keys : List NNKey)
    (mems : List (Option Nat)) (st0 : CLoop) (n : Nat) : CLoop :=
  (List.range n).foldl (_NN_Combo_MemberScan tick window exc keys mems) st0

/-- Inductive invariant of the member scan, parametrised by the initial
window-start value `f0` and the number `n` of slots already scanned. -/
def scanInvP (tick window exc f0 : Nat) (keys : List NNKey)
    (mems : List (Option Nat)) (n : Nat) (st : CLoop) : Prop :=
  st.now < 16 ∧
  (st.trigger = false →
    (st.first = 0 → f0 = 0 ∧ ∀ j, j < n → pressedSlot keys mems j = false) ∧
    ((∃ j, j < n ∧ pressedSlot keys mems j = true) → st.now ≠ exc) ∧
    (¬ window < sub32 tick st.first →
      ∀ j, j < n → pressedSlot keys mems j = true →
        (st.now ||| (1 <<< j)) % 16 = st.now)) ∧
  (st.active = true → st.trigger = true ∨ st.first ≠ 0)

/- ========================= general lemmas ========================= -/

theorem sub32_self (t : Nat) : sub32 t t = 0 := by
  unfold sub32 U32
  omega

/- ========================= C1 ========================= -/

/-- C1 (counterexample): the claim says a raw pulse shorter than
`debounce_time` (here the default 20 ms) never moves the machine out of
`Released`.  `kRel` entered `Released` at tick 0; a pulse covering only tick
100 (1 ms < 20 ms) already transitions it to `Pressed`, because the guard
compares against the time of the last state transition, not the pulse
length. -/
theorem C1_counterexample :
    kRel.state = KeyState.released ∧ kRel.debounce_time = 20 ∧
    (_NN_Key_StateMachine kRel 100 true).state = KeyState.pressed := by
  decide

/-- C1 (amended): a key in `Released` stays in `Released` as long as the raw
input reads released, or fewer than `debounce_time` ms have elapsed since
the key's last state transition (`key_last_time`).  Once `debounce_time` ms
have passed since that transition, a single pressed sample — however short
the pulse — causes the transition out of `Released`. -/
theorem C1_theorem : ∀ (k : NNKey) (tick : Nat) (raw : Bool),
    k.state = KeyState.released →
    raw = false ∨ sub32 tick k.key_last_time < k.debounce_time →
    (_NN_Key_StateMachine k tick raw).state = KeyState.released := by
  intro k tick raw hs h
  rcases h with h | h
  · subst h
    simp [_NN_Key_StateMachine, hs]
  · have hd : ¬ k.debounce_time ≤ sub32 tick k.key_last_time := by omega
    rcases Bool.eq_false_or_eq_true raw with hr | hr
    · subst hr
      simp [_NN_Key_StateMachine, hs, hd]
    · subst hr
      simp [_NN_Key_StateMachine, hs, hd]

/-- C1 (witness): concrete instance of `C1_theorem` at tick 105, five
milliseconds after the transition into `Released` at tick 100. -/
theorem C1_witness :
    ({ NN_Key_Init with state := .released, key_last_time := 100 } : NNKey).state
      = KeyState.released ∧
    (_NN_Key_StateMachine
      { NN_Key_Init with state := .released, key_last_time := 100 } 105 true).state
      = KeyState.released :=
  ⟨rfl, C1_theorem _ 105 true rfl (Or.inr (by decide))⟩

/- ========================= C2 ========================= -/

set_option maxRecDepth 100000 in
/-- C2 (confirmed): in the in-window combo scenario (A's raw press at t=0,
B's raw press at t=250, combo window 300 ms; the single-press events are
observed by the combo engine at ticks 310 and 560, i.e. 250 ms apart),
the whole run performs exactly one combo-callback invocation (at tick 560)
and zero single-press callback invocations, although both keys have press
callbacks registered; immediately after the triggering call — and at the
end of the run — the pending events of both member keys are cleared to the
"none" event. -/
theorem C2_theorem :
    runC2.2.countP isComboEntry = 1 ∧
    runC2.2.countP isPressEntry = 0 ∧
    runC2.2 = [LogEntry.comboCb 560 0] ∧
    (getKey (runTicks rawsC2 sysAB (ticksTo 57)).1 0).event = KeyEvent.evInit ∧
    (getKey (runTicks rawsC2 sysAB (ticksTo 57)).1 1).event = KeyEvent.evInit ∧
    (getKey runC2.1 0).event = KeyEvent.evInit ∧
    (getKey runC2.1 1).event = KeyEvent.evInit := by
  decide

/- ========================= C3 ========================= -/

set_option maxRecDepth 100000 in
/-- C3 (counterexample): the claim says that after the combo window expires,
the members' single-press events are dispatched "on the tick after the
window expires" and that the expiring tick's pending presses are "consumed
and lost".  In the out-of-window scenario the window opened at tick 310 is
still open after the call at tick 610; the single handler call at tick 620
both discards the window-start (expiry) and, in the same call, dispatches
key A's pending single-press callback — the press is delivered during the
expiring call itself, and is not lost. -/
theorem C3_counterexample :
    (getComb s610 0).combo_mem_first = 310 ∧
    call620.2 = [LogEntry.keyCb 620 0 KeyEvent.evPressed] ∧
    (getComb call620.1 0).combo_mem_first = 0 ∧
    (getComb call620.1 0).combo_value_now = 0 := by
  decide

set_option maxRecDepth 100000 in
/-- C3 (amended): with A's raw press at t=0 and B's raw press at t=400
(combo window 300 ms), the combo never triggers; the accumulated bitmask
and window-start are discarded on expiry and the members unlocked; each
key's ordinary single-press event is dispatched individually in the same
handler call in which its window expires (A at tick 620, closing the window
opened by A's press event at 310; B's press event at 710 opens a second
window and is dispatched at its expiry, tick 1020).  Exactly two `Press`
dispatches occur, no combo callback, and no press is lost. -/
theorem C3_theorem :
    runC3.2.countP isComboEntry = 0 ∧
    runC3.2.countP isPressEntry = 2 ∧
    runC3.2 = [LogEntry.keyCb 620 0 KeyEvent.evPressed,
               LogEntry.keyCb 1020 1 KeyEvent.evPressed] ∧
    (getComb runC3.1 0).combo_mem_first = 0 ∧
    (getComb runC3.1 0).combo_value_now = 0 ∧
    (getKey runC3.1 0).lock_flag = false ∧
    (getKey runC3.1 1).lock_flag = false := by
  decide

/- ========================= C4 ========================= -/

theorem keyEvent_alws_char (k : NNKey) (i tick lt : Nat)
    (h : k.event = KeyEvent.evLongPressedAlws) :
    _NN_Key_Event k i tick lt =
      if (k.callback_mask.testBit 3 ∧ k.callbacks.getD 3 false = true) ∧
          KEY_LONG_PRESS_ALWS_CB ≤ sub32 tick lt then
        (k, tick, [LogEntry.keyCb tick i KeyEvent.evLongPressedAlws])
      else (k, lt, []) := by
  simp only [_NN_Key_Event, h, evIdx]
  norm_num
  split_ifs <;> simp_all

/-- C4 (confirmed): for a key whose pending event is the continuous-long-press
kind, the dispatcher `_NN_Key_Event` (1) never clears the pending event;
(2) invokes the callback only when at least `KEY_LONG_PRESS_ALWS_CB` = 50 ms
have elapsed since the shared last-fired timestamp, recording the firing
tick; (3) keeps the timestamp unchanged when it does not fire; (4) after a
firing, any dispatch less than 50 ms later performs no invocation; and
(5) the state machine keeps re-raising the event while the key is physically
held in the continuous state and stops it (event becomes the "none" event)
exactly when the physical release is detected. -/
theorem C4_theorem : ∀ (k : NNKey) (i tick lt : Nat),
    k.event = KeyEvent.evLongPressedAlws →
    (_NN_Key_Event k i tick lt).1.event = KeyEvent.evLongPressedAlws ∧
    ((_NN_Key_Event k i tick lt).2.2 ≠ [] →
      KEY_LONG_PRESS_ALWS_CB ≤ sub32 tick lt ∧ (_NN_Key_Event k i tick lt).2.1 = tick) ∧
    ((_NN_Key_Event k i tick lt).2.2 = [] → (_NN_Key_Event k i tick lt).2.1 = lt) ∧
    (∀ t2 i2, sub32 t2 tick < KEY_LONG_PRESS_ALWS_CB →
      (_NN_Key_Event (_NN_Key_Event k i tick lt).1 i2 t2 tick).2.2 = []) ∧
    (k.state = KeyState.longPressedAlws →
      (_NN_Key_StateMachine k tick true).event = KeyEvent.evLongPressedAlws ∧
      (_NN_Key_StateMachine k tick false).event = KeyEvent.evInit) := by
  intro k i tick lt h
  have h2 : ∀ t2 i2, sub32 t2 tick < KEY_LONG_PRESS_ALWS_CB →
      (_NN_Key_Event k i2 t2 tick).2.2 = [] := by
    intro t2 i2 ht2
    rw [keyEvent_alws_char k i2 t2 tick h]
    have : ¬ KEY_LONG_PRESS_ALWS_CB ≤ sub32 t2 tick := by omega
    simp [this]
  have hsm : k.state = KeyState.longPressedAlws →
      (_NN_Key_StateMachine k tick true).event = KeyEvent.evLongPressedAlws ∧
      (_NN_Key_StateMachine k tick false).event = KeyEvent.evInit := by
    intro hst
    constructor
    · simp [_NN_Key_StateMachine, hst]
    · simp [_NN_Key_StateMachine, hst]
  rw [keyEvent_alws_char k i tick lt h]
  by_cases hc : (k.callback_mask.testBit 3 ∧ k.callbacks.getD 3 false = true) ∧
      KEY_LONG_PRESS_ALWS_CB ≤ sub32 tick lt
  · rw [if_pos hc]
    refine ⟨h, fun _ => ⟨hc.2, rfl⟩, fun habs => by simp at habs, fun t2 i2 ht2 => h2 t2 i2 ht2, hsm⟩
  · rw [if_neg hc]
    exact ⟨h, fun habs => absurd rfl habs, fun _ => rfl, fun t2 i2 ht2 => h2 t2 i2 ht2, hsm⟩

/-- C4 (witness): `C4_theorem` applied to the held key `kAlws` (continuous
event pending, continuous callback registered) at tick 100 with last-fired
timestamp 0. -/
theorem C4_witness :
    kAlws.event = KeyEvent.evLongPressedAlws ∧
    (_NN_Key_Event kAlws 0 100 0).1.event = KeyEvent.evLongPressedAlws ∧
    (_NN_Key_Event kAlws 0 100 0).2.1 = 100 :=
  ⟨rfl, (C4_theorem kAlws 0 100 0 rfl).1,
    ((C4_theorem kAlws 0 100 0 rfl).2.1 (by decide)).2⟩

/- ========================= C5 ========================= -/

set_option maxRecDepth 100000 in
/-- C5 (code-bug evaluation): `multi_max` is documented and configurable
("maximum number of consecutive presses", default 4, clamped to 15) but
`_NN_Key_StateMachine` increments `multi_count` without ever consulting it:
after five short presses (t = 0, 50, 100, 150, 200, each 10 ms) the counter
holds 5 > `multi_max` = 4 instead of saturating, and the closing window
still classifies it as the multi-press event.  Because the counter is a
4-bit bitfield, sixteen short presses wrap it to 0, and the window then
closes with no event at all — an accumulated click count greater than 3
mapped to "none". -/
theorem C5_theorem :
    NN_Key_Init.multi_max = 4 ∧
    (runKey raw5 NN_Key_Init (ticksTo 22)).multi_count = 5 ∧
    (runKey raw5 NN_Key_Init (ticksTo 52)).event = KeyEvent.evMulti ∧
    (runKey raw16 NN_Key_Init (ticksTo 77)).multi_count = 0 ∧
    (runKey raw16 NN_Key_Init (ticksTo 107)).event = KeyEvent.evInit ∧
    (runKey raw16 NN_Key_Init (ticksTo 107)).state = KeyState.released ∧
    (NN_Key_SetPara NN_Key_Init 0 0 0 0 20).2.multi_max = 15 := by
  decide

/- ========================= C6 ========================= -/

set_option maxRecDepth 100000 in
/-- C6 (code-bug evaluation): `NN_Combo_Add` only rejects
`mem_nbr > KEY_MAX_COMBO_MEMBER`, never `mem_nbr < 2`, although its own
documentation requires at least two member keys; a registration with
`mem_nbr = 1` succeeds and is stored.  It also checks
`_nn_combo_num > KEY_MAX_COMBO_NUMBER` instead of `>=` (contrast
`NN_Key_Add`), so with 20 combos registered a 21st registration succeeds —
in C this writes `_nn_combo_list[20]`, one past the end of the array.
(`NN_Key_Add` itself correctly rejects the 21st key, last conjunct.) -/
theorem C6_theorem :
    (NN_Combo_Add regAB (some ()) 1 (some 0) (some 1) []).1 = true ∧
    (NN_Combo_Add regAB (some ()) 1 (some 0) (some 1) []).2.combos.length = 1 ∧
    reg20.combos.length = 20 ∧
    (NN_Combo_Add reg20 (some ()) 2 (some 0) (some 1) []).1 = true ∧
    (NN_Combo_Add reg20 (some ()) 2 (some 0) (some 1) []).2.combos.length = 21 := by
  decide

/- ========================= C7 ========================= -/

/-- C7 (counterexample): the claim says registering an absent (`None`/NULL)
callback removes the currently registered one, so the event then invokes no
callback.  In the code, `NN_Key_SetCb` with a NULL callback fails up front
(`cb == NULL` check) and changes nothing: on `k7`, which has a press
callback registered, the call returns `false`, leaves the key unchanged,
and a subsequent pending press still invokes the callback. -/
theorem C7_counterexample :
    (NN_Key_SetCb k7 KeyEvent.evPressed none).1 = false ∧
    (NN_Key_SetCb k7 KeyEvent.evPressed none).2 = k7 ∧
    (_NN_Key_Event { k7 with event := KeyEvent.evPressed } 0 5 0).2.2 =
      [LogEntry.keyCb 5 0 KeyEvent.evPressed] := by
  decide

/-- C7 (amended): registering an absent callback through `NN_Key_SetCb`
fails (`false`) and leaves the key — including its registered callbacks —
unchanged; removal is performed by the separate `NN_Key_DeleteCb`, after
which an occurrence of that event kind invokes no callback. -/
theorem C7_theorem : ∀ (k : NNKey) (ev : KeyEvent) (i tick lt : Nat),
    (NN_Key_SetCb k ev none).1 = false ∧
    (NN_Key_SetCb k ev none).2 = k ∧
    (_NN_Key_Event { (NN_Key_DeleteCb k ev).2 with event := ev } i tick lt).2.2 = [] := by
  intro k ev i tick lt
  refine ⟨by simp [NN_Key_SetCb], by simp [NN_Key_SetCb], ?_⟩
  cases ev
  case evInit => simp [_NN_Key_Event]
  case evPressed =>
    simp [_NN_Key_Event, NN_Key_DeleteCb, evIdx, show Nat.testBit 253 1 = false by decide]
  case evLongPressed =>
    simp [_NN_Key_Event, NN_Key_DeleteCb, evIdx, show Nat.testBit 251 2 = false by decide]
  case evLongPressedAlws =>
    simp [_NN_Key_Event, NN_Key_DeleteCb, evIdx, show Nat.testBit 247 3 = false by decide]
  case evDouble =>
    simp [_NN_Key_Event, NN_Key_DeleteCb, evIdx, show Nat.testBit 239 4 = false by decide]
  case evTriple =>
    simp [_NN_Key_Event, NN_Key_DeleteCb, evIdx, show Nat.testBit 223 5 = false by decide]
  case evMulti =>
    simp [_NN_Key_Event, NN_Key_DeleteCb, evIdx, show Nat.testBit 191 6 = false by decide]

/- ========================= C8 ========================= -/

theorem bit4_facts (nbr j now : Nat) (h5 : nbr < 5) (hj : j < nbr) (h16 : now < 16) :
    ((1 <<< j) % 16 < 16 ∧ (now ||| (1 <<< j)) % 16 < 16) ∧
    ((1 <<< j) % 16 &&& (2 ^ nbr - 1) = (1 <<< j) % 16) ∧
    (now &&& (2 ^ nbr - 1) = now →
      (now ||| (1 <<< j)) % 16 &&& (2 ^ nbr - 1) = (now ||| (1 <<< j)) % 16) ∧
    ((1 <<< j) % 16 ≠ 0) ∧
    (now ≠ 0 → (now ||| (1 <<< j)) % 16 ≠ 0) := by
  interval_cases nbr <;> interval_cases j <;> interval_cases now <;> decide

theorem scan_step_subset (tick window e nbr : Nat) (keys : List NNKey)
    (mems : List (Option Nat)) (he : e = 2 ^ nbr - 1) (hn : nbr ≤ 4)
    (j : Nat) (hj : j < nbr) (st : CLoop)
    (h : st.now < 16 ∧ bitSubset st.now e) :
    (_NN_Combo_MemberScan tick window e keys mems st j).now < 16 ∧
      bitSubset (_NN_Combo_MemberScan tick window e keys mems st j).now e := by
  subst he
  have hf := bit4_facts nbr j st.now (by omega) hj h.1
  unfold _NN_Combo_MemberScan
  cases hm : mems.getD j none with
  | none => exact h
  | some mi =>
    by_cases hev : (keys.getD mi NN_Key_Init).event = KeyEvent.evPressed
    · simp only [hev, if_pos rfl]
      by_cases h1 : st.first = 0
      · simp only [if_pos h1]
        by_cases h3 : ((1 <<< j) % 16 : Nat) = 2 ^ nbr - 1
        · simp [h3, bitSubset]
        · simp only [h3, if_neg h3]
          exact ⟨hf.1.1, hf.2.1⟩
      · simp only [if_neg h1]
        by_cases h2 : sub32 tick st.first ≤ window
        · simp only [if_pos h2]
          by_cases h3 : ((st.now ||| (1 <<< j)) % 16 : Nat) = 2 ^ nbr - 1
          · simp [h3, bitSubset]
          · simp only [h3, if_neg h3]
            exact ⟨hf.1.2, hf.2.2.1 h.2⟩
        · simp only [if_neg h2]
          by_cases h3 : st.now = 2 ^ nbr - 1
          · simp [h3, bitSubset]
          · simpa [h3] using h
    · simp only [if_neg hev]
      exact h

theorem scan_fold_subset (tick window e nbr : Nat) (keys : List NNKey)
    (mems : List (Option Nat)) (he : e = 2 ^ nbr - 1) (hn : nbr ≤ 4) :
    ∀ l : List Nat, (∀ j ∈ l, j < nbr) →
    ∀ st : CLoop, st.now < 16 ∧ bitSubset st.now e →
    (l.foldl (_NN_Combo_MemberScan tick window e keys mems) st).now < 16 ∧
      bitSubset (l.foldl (_NN_Combo_MemberScan tick window e keys mems) st).now e := by
  intro l
  induction l with
  | nil => exact fun _ st h => h
  | cons j l ih =>
    intro hl st h
    have hj : j < nbr := hl j (List.mem_cons_self j l)
    exact ih (fun x hx => hl x (List.mem_cons_of_mem j hx)) _
      (scan_step_subset tick window e nbr keys mems he hn j hj st h)

theorem scan_step_iff (tick window e nbr : Nat) (keys : List NNKey)
    (mems : List (Option Nat)) (hn : nbr ≤ 4) (htick : 1 ≤ tick)
    (j : Nat) (hj : j < nbr) (st : CLoop)
    (h : st.now < 16 ∧ (st.now = 0 ↔ st.first = 0)) :
    (_NN_Combo_MemberScan tick window e keys mems st j).now < 16 ∧
      ((_NN_Combo_MemberScan tick window e keys mems st j).now = 0 ↔
        (_NN_Combo_MemberScan tick window e keys mems st j).first = 0) := by
  have hf := bit4_facts (j + 1) j st.now (by omega) (by omega) h.1
  unfold _NN_Combo_MemberScan
  cases hm : mems.getD j none with
  | none => exact h
  | some mi =>
    by_cases hev : (keys.getD mi NN_Key_Init).event = KeyEvent.evPressed
    · simp only [hev, if_pos rfl]
      by_cases h1 : st.first = 0
      · simp only [if_pos h1]
        by_cases h3 : ((1 <<< j) % 16 : Nat) = e
        · simp [h3]
        · simp only [h3, if_neg h3]
          refine ⟨hf.1.1, ?_⟩
          show (1 <<< j) % 16 = 0 ↔ tick = 0
          exact ⟨fun h0 => absurd h0 hf.2.2.2.1, fun h0 => absurd h0 (by omega)⟩
      · simp only [if_neg h1]
        have hnz : st.now ≠ 0 := fun h0 => h1 (h.2.mp h0)
        by_cases h2 : sub32 tick st.first ≤ window
        · simp only [if_pos h2]
          by_cases h3 : ((st.now ||| (1 <<< j)) % 16 : Nat) = e
          · simp [h3]
          · simp only [h3, if_neg h3]
            refine ⟨hf.1.2, ?_⟩
            show (st.now ||| (1 <<< j)) % 16 = 0 ↔ st.first = 0
            exact ⟨fun h0 => absurd h0 (hf.2.2.2.2 hnz), fun h0 => absurd h0 h1⟩
        · simp only [if_neg h2]
          by_cases h3 : st.now = e
          · simp [h3]
          · simpa [h3] using h
    · simp only [if_neg hev]
      exact h

theorem scan_fold_iff (tick window e nbr : Nat) (keys : List NNKey)
    (mems : List (Option Nat)) (hn : nbr ≤ 4) (htick : 1 ≤ tick) :
    ∀ l : List Nat, (∀ j ∈ l, j < nbr) →
    ∀ st : CLoop, st.now < 16 ∧ (st.now = 0 ↔ st.first = 0) →
    (l.foldl (_NN_Combo_MemberScan tick window e keys mems) st).now < 16 ∧
      ((l.foldl (_NN_Combo_MemberScan tick window e keys mems) st).now = 0 ↔
        (l.foldl (_NN_Combo_MemberScan tick window e keys mems) st).first = 0) := by
  intro l
  induction l with
  | nil => exact fun _ st h => h
  | cons j l ih =>
    intro hl st h
    have hj : j < nbr := hl j (List.mem_cons_self j l)
    exact ih (fun x hx => hl x (List.mem_cons_of_mem j hx)) _
      (scan_step_iff tick window e nbr keys mems hn htick j hj st h)

/-- C8 (counterexample): the claim asserts the window-start is non-zero iff
at least one member press has been observed and the window has neither
closed nor matched — "including when the first press is observed at tick
value 0".  At tick 0 the code stores `combo_mem_first = tick = 0`: after
processing, member A's press is recorded in the accumulated bitmask
(`combo_value_now = 1`, not matched, not expired) while the window-start is
still 0, so the claimed iff fails at tick 0. -/
theorem C8_counterexample :
    (_NN_Combo_ProcessOne 0 0 c8 [k8, NN_Key_Init]).1.combo_value_now = 1 ∧
    (_NN_Combo_ProcessOne 0 0 c8 [k8, NN_Key_Init]).1.combo_mem_first = 0 := by
  decide

/-- C8 (amended): for a well-formed combo (member count at most
`KEY_MAX_COMBO_MEMBER`, expected bitmask as computed by `NN_Combo_Add`,
accumulated value within its 4-bit storage), one pass of the combo engine
preserves "accumulated bitmask is a subset of the expected bitmask"
unconditionally; and — provided the tick is at least 1 — it preserves the
invariant "the accumulated bitmask is non-empty iff the window-start
timestamp is non-zero" (at tick 0 this fails, see the counterexample: the
press is recorded but the window-start stays 0). -/
theorem C8_theorem : ∀ (tick ci : Nat) (c : NNComb) (keys : List NNKey),
    c.combo_member_nbr ≤ 4 →
    c.combo_value_excepted = 2 ^ c.combo_member_nbr - 1 →
    c.combo_value_now < 16 →
    bitSubset c.combo_value_now c.combo_value_excepted →
    bitSubset (_NN_Combo_ProcessOne tick ci c keys).1.combo_value_now
      (_NN_Combo_ProcessOne tick ci c keys).1.combo_value_excepted ∧
    (1 ≤ tick → (c.combo_value_now = 0 ↔ c.combo_mem_first = 0) →
      ((_NN_Combo_ProcessOne tick ci c keys).1.combo_value_now = 0 ↔
        (_NN_Combo_ProcessOne tick ci c keys).1.combo_mem_first = 0)) := by
  intro tick ci c keys hn he h16 hsub
  have hfold := scan_fold_subset tick c.combo_window c.combo_value_excepted
    c.combo_member_nbr keys c.combo_member he hn
    (List.range c.combo_member_nbr) (fun j hj => List.mem_range.mp hj)
    { first := c.combo_mem_first, now := c.combo_value_now,
      trigger := c.combo_trigger, active := 0 < c.combo_mem_first } ⟨h16, hsub⟩
  constructor
  · simp only [_NN_Combo_ProcessOne]
    split_ifs <;>
      first
      | exact Nat.zero_and _
      | exact hfold.2
  · intro htick hiff
    have hfold2 := scan_fold_iff tick c.combo_window c.combo_value_excepted
      c.combo_member_nbr keys c.combo_member hn htick
      (List.range c.combo_member_nbr) (fun j hj => List.mem_range.mp hj)
      { first := c.combo_mem_first, now := c.combo_value_now,
        trigger := c.combo_trigger, active := 0 < c.combo_mem_first } ⟨h16, hiff⟩
    simp only [_NN_Combo_ProcessOne]
    split_ifs <;>
      first
      | exact Iff.rfl
      | exact hfold2.2

/-- C8 (witness): `C8_theorem` applied at tick 5 to the combo of the
counterexample scenario with A's bit accumulated and window opened at
tick 300. -/
theorem C8_witness :
    bitSubset
      (_NN_Combo_ProcessOne 5 0
        { c8 with combo_value_now := 1, combo_mem_first := 300 }
        [k8, NN_Key_Init]).1.combo_value_now
      (_NN_Combo_ProcessOne 5 0
        { c8 with combo_value_now := 1, combo_mem_first := 300 }
        [k8, NN_Key_Init]).1.combo_value_excepted ∧
    ((_NN_Combo_ProcessOne 5 0
        { c8 with combo_value_now := 1, combo_mem_first := 300 }
        [k8, NN_Key_Init]).1.combo_value_now = 0 ↔
      (_NN_Combo_ProcessOne 5 0
        { c8 with combo_value_now := 1, combo_mem_first := 300 }
        [k8, NN_Key_Init]).1.combo_mem_first = 0) :=
  ⟨(C8_theorem 5 0 { c8 with combo_value_now := 1, combo_mem_first := 300 }
      [k8, NN_Key_Init] (by decide) (by decide) (by decide) rfl).1,
    (C8_theorem 5 0 { c8 with combo_value_now := 1, combo_mem_first := 300 }
      [k8, NN_Key_Init] (by decide) (by decide) (by decide) rfl).2
      (by decide) (by decide)⟩

/- ========================= C10 ========================= -/

theorem alwsTicks_append (a b : List LogEntry) :
    alwsTicks (a ++ b) = alwsTicks a ++ alwsTicks b := by
  simp [alwsTicks]

theorem keyEvent_alws_log (k : NNKey) (i tick lt : Nat) :
    (alwsTicks (_NN_Key_Event k i tick lt).2.2 = [] ∧
      (_NN_Key_Event k i tick lt).2.1 = lt) ∨
    (alwsTicks (_NN_Key_Event k i tick lt).2.2 = [tick] ∧
      (_NN_Key_Event k i tick lt).2.1 = tick ∧
      KEY_LONG_PRESS_ALWS_CB ≤ sub32 tick lt) := by
  simp only [_NN_Key_Event]
  by_cases h0 : k.event = KeyEvent.evInit
  · rw [if_pos h0]
    exact Or.inl ⟨rfl, rfl⟩
  · rw [if_neg h0]
    by_cases hm : k.callback_mask.testBit (evIdx k.event) = true ∧
        k.callbacks.getD (evIdx k.event) false = true
    · rw [if_pos hm]
      by_cases ha : k.event = KeyEvent.evLongPressedAlws
      · rw [if_pos ha]
        by_cases ht : KEY_LONG_PRESS_ALWS_CB ≤ sub32 tick lt
        · rw [if_pos ht]
          refine Or.inr ⟨?_, rfl, ht⟩
          simp [alwsTicks, ha]
        · rw [if_neg ht]
          exact Or.inl ⟨rfl, rfl⟩
      · rw [if_neg ha]
        refine Or.inl ⟨?_, rfl⟩
        simp [alwsTicks, ha]
    · rw [if_neg hm]
      by_cases ha : k.event = KeyEvent.evLongPressedAlws
      · rw [if_neg (not_not_intro ha)]
        exact Or.inl ⟨rfl, rfl⟩
      · rw [if_pos ha]
        exact Or.inl ⟨rfl, rfl⟩

theorem dispatchAll_alws_log (tick : Nat) : ∀ (ks : List NNKey) (i lt : Nat),
    (alwsTicks (dispatchAll tick i lt ks).2.2 = [] ∧
      (dispatchAll tick i lt ks).2.1 = lt) ∨
    (alwsTicks (dispatchAll tick i lt ks).2.2 = [tick] ∧
      (dispatchAll tick i lt ks).2.1 = tick ∧
      KEY_LONG_PRESS_ALWS_CB ≤ sub32 tick lt) := by
  intro ks
  induction ks with
  | nil =>
    intro i lt
    left
    simp [dispatchAll, alwsTicks]
  | cons k ks ih =>
    intro i lt
    by_cases hl : k.lock_flag = true
    · simp only [dispatchAll, if_pos hl]
      exact ih (i + 1) lt
    · simp only [dispatchAll, if_neg hl]
      rw [alwsTicks_append]
      rcases keyEvent_alws_log k i tick lt with ⟨he1, he2⟩ | ⟨he1, he2, he3⟩
      · rw [he1, he2, List.nil_append]
        exact ih (i + 1) lt
      · rw [he1, he2]
        rcases ih (i + 1) tick with ⟨h1, h2⟩ | ⟨h1, h2, h3⟩
        · right
          rw [h1, h2]
          exact ⟨rfl, rfl, he3⟩
        · exfalso
          rw [sub32_self] at h3
          exact absurd h3 (by decide)

theorem comboProcess_alws_log (tick : Nat) : ∀ (cs : List NNComb) (i : Nat)
    (ks : List NNKey),
    alwsTicks (_NN_Combo_Process tick i cs ks).2.2 = [] := by
  intro cs
  induction cs with
  | nil =>
    intro i ks
    simp [_NN_Combo_Process, alwsTicks]
  | cons c cs ih =>
    intro i ks
    simp only [_NN_Combo_Process]
    rw [alwsTicks_append]
    have h1 : alwsTicks (_NN_Combo_ProcessOne tick i c ks).2.2 = [] := by
      simp only [_NN_Combo_ProcessOne]
      split_ifs <;> simp [alwsTicks]
    rw [h1, ih, List.nil_append]

theorem handler_alws_log (raws : Nat → Bool) (sys : Sys) (tick : Nat) :
    (alwsTicks (NN_Key_Handler raws sys tick).2 = [] ∧
      (NN_Key_Handler raws sys tick).1.lastTick = sys.lastTick) ∨
    (alwsTicks (NN_Key_Handler raws sys tick).2 = [tick] ∧
      (NN_Key_Handler raws sys tick).1.lastTick = tick ∧
      KEY_LONG_PRESS_ALWS_CB ≤ sub32 tick sys.lastTick) := by
  simp only [NN_Key_Handler]
  rw [alwsTicks_append, comboProcess_alws_log, List.nil_append]
  exact dispatchAll_alws_log tick _ 0 sys.lastTick

theorem runTicks_alws_inv (raws : Nat → Nat → Bool) :
    ∀ (ts : List Nat) (sys : Sys),
    List.Chain' (fun a b => KEY_LONG_PRESS_ALWS_CB ≤ sub32 b a)
      (alwsTicks (runTicks raws sys ts).2) ∧
    (∀ y ∈ (alwsTicks (runTicks raws sys ts).2).head?,
      KEY_LONG_PRESS_ALWS_CB ≤ sub32 y sys.lastTick) ∧
    (runTicks raws sys ts).1.lastTick =
      (alwsTicks (runTicks raws sys ts).2).getLastD sys.lastTick := by
  intro ts
  induction ts with
  | nil =>
    intro sys
    simp [runTicks, alwsTicks]
  | cons t ts ih =>
    intro sys
    simp only [runTicks]
    rw [alwsTicks_append]
    rcases handler_alws_log (raws t) sys t with ⟨h1, h2⟩ | ⟨h1, h2, h3⟩
    · rw [h1, List.nil_append]
      have hih := ih (NN_Key_Handler (raws t) sys t).1
      rw [h2] at hih
      exact hih
    · rw [h1]
      have hih := ih (NN_Key_Handler (raws t) sys t).1
      rw [h2] at hih
      refine ⟨?_, ?_, ?_⟩
      · rw [List.singleton_append, List.chain'_cons']
        exact ⟨fun y hy => hih.2.1 y hy, hih.1⟩
      · intro y hy
        rw [List.singleton_append] at hy
        simp only [List.head?_cons, Option.mem_def, Option.some.injEq] at hy
        subst hy
        exact h3
      · rw [List.singleton_append, List.getLastD_cons]
        exact hih.2.2

set_option maxRecDepth 100000 in
/-- C10 (confirmed): the continuous-long-press rate limiter's last-fired
timestamp is the single static `LastTick` shared by all keys, so across the
whole system the ticks of consecutive continuous-long-press callback
invocations in any run are always at least `KEY_LONG_PRESS_ALWS_CB` = 50 ms
apart (first conjunct; in particular at most one such invocation can occur
at any instant).  In the concrete two-key scenario where both keys hold a
pending continuous event with registered callbacks, key 0 — earlier in
registration order — fires 4 times over 200 ms while key 1 is suppressed
for the whole run (fires 0 times) even though its event stays pending and
its callback stays registered. -/
theorem C10_theorem :
    (∀ (raws : Nat → Nat → Bool) (sys : Sys) (ts : List Nat),
      List.Chain' (fun a b => KEY_LONG_PRESS_ALWS_CB ≤ sub32 b a)
        (alwsTicks (runTicks raws sys ts).2)) ∧
    runD.2.countP (isAlwsEntryOf 0) = 4 ∧
    runD.2.countP (isAlwsEntryOf 1) = 0 ∧
    (getKey runD.1 1).event = KeyEvent.evLongPressedAlws ∧
    (getKey runD.1 1).callback_mask.testBit 3 = true := by
  refine ⟨fun raws sys ts => (runTicks_alws_inv raws ts sys).1, ?_, ?_, ?_, ?_⟩ <;> decide

/- ========================= C9 ========================= -/

/-- C9 (counterexample): the claim says a second `NN_Key_Handler` call with
the same tick and raw readings produces no new pending event.  In scenario
`s9`, key X is physically held in the continuous-long-press state while the
combo it belongs to triggers (Y's press completes it): the trigger clears
X's pending continuous event.  The first call at tick 450 therefore leaves
X with the "none" event; the second, identical call re-raises X's
continuous-long-press event — a new pending event with no state
transition. -/
theorem C9_counterexample :
    (getKey s9a 0).event = KeyEvent.evInit ∧
    (getKey s9b 0).event = KeyEvent.evLongPressedAlws ∧
    (getKey s9b 0).state = (getKey s9a 0).state ∧
    (getKey s9a 0).state = KeyState.longPressedAlws ∧
    s9b ≠ s9a := by
  decide

/- ========================= C9 helper lemmas ========================= -/

theorem withEvLock_state (k : NNKey) (e : KeyEvent) (l : Bool) :
    (withEvLock k e l).state = k.state := rfl

theorem withEvLock_event (k : NNKey) (e : KeyEvent) (l : Bool) :
    (withEvLock k e l).event = e := rfl

theorem withEvLock_lock (k : NNKey) (e : KeyEvent) (l : Bool) :
    (withEvLock k e l).lock_flag = l := rfl

theorem withEvLock_withEvLock (k : NNKey) (e e' : KeyEvent) (l l' : Bool) :
    withEvLock (withEvLock k e l) e' l' = withEvLock k e' l' := rfl

theorem withEvLock_self (k : NNKey) : withEvLock k k.event k.lock_flag = k := rfl

theorem modifyNth_length (f : α → α) :
    ∀ (n : Nat) (l : List α), (modifyNth f n l).length = l.length := by
  intro n l
  induction l generalizing n with
  | nil => cases n <;> simp [modifyNth]
  | cons a as ih => cases n <;> simp [modifyNth, ih]

theorem getD_modifyNth (f : α → α) (d : α) :
    ∀ (l : List α) (n m : Nat),
    (modifyNth f n l).getD m d =
      if m = n ∧ n < l.length then f (l.getD m d) else l.getD m d := by
  intro l
  induction l with
  | nil => intro n m; cases n <;> simp [modifyNth]
  | cons a as ih =>
    intro n m
    cases n with
    | zero =>
      cases m with
      | zero => simp [modifyNth]
      | succ m => simp [modifyNth]
    | succ n =>
      cases m with
      | zero => simp [modifyNth]
      | succ m =>
        simp only [modifyNth, List.getD_cons_succ, ih n m, List.length_cons]
        by_cases h : m = n ∧ n < as.length
        · rw [if_pos h, if_pos (by omega)]
        · rw [if_neg h, if_neg (by omega)]

theorem sm_lock (k : NNKey) (tick : Nat) (raw : Bool) :
    (_NN_Key_StateMachine k tick raw).lock_flag = k.lock_flag := by
  cases hs : k.state <;> simp only [_NN_Key_StateMachine, hs] <;> split_ifs <;> rfl

theorem sm_is_member (k : NNKey) (tick : Nat) (raw : Bool) :
    (_NN_Key_StateMachine k tick raw).is_member = k.is_member := by
  cases hs : k.state <;> simp only [_NN_Key_StateMachine, hs] <;> split_ifs <;> rfl

theorem sm_alws_event (k : NNKey) (tick : Nat) (raw : Bool)
    (h : (_NN_Key_StateMachine k tick raw).state = KeyState.longPressedAlws) :
    (_NN_Key_StateMachine k tick raw).event = KeyEvent.evLongPressedAlws := by
  cases hs : k.state <;> simp only [_NN_Key_StateMachine, hs] at h ⊢ <;>
    split_ifs at h ⊢ <;> simp_all

theorem smc_init_t (k : NNKey) (tick : Nat) (h : k.state = KeyState.init) :
    _NN_Key_StateMachine k tick true =
      { k with state := .pressed, key_last_time := tick } := by
  simp only [_NN_Key_StateMachine, h]
  simp

theorem smc_init_f (k : NNKey) (tick : Nat) (h : k.state = KeyState.init) :
    _NN_Key_StateMachine k tick false =
      { k with state := .released, key_last_time := tick, event := .evInit } := by
  simp only [_NN_Key_StateMachine, h]
  simp

theorem smc_rel_t_go (k : NNKey) (tick : Nat) (h : k.state = KeyState.released)
    (hc : k.debounce_time ≤ sub32 tick k.key_last_time) :
    _NN_Key_StateMachine k tick true =
      { k with state := .pressed, key_last_time := tick, event := .evInit } := by
  simp only [_NN_Key_StateMachine, h]
  simp [hc]

theorem smc_rel_t_stay (k : NNKey) (tick : Nat) (h : k.state = KeyState.released)
    (hc : ¬ k.debounce_time ≤ sub32 tick k.key_last_time) :
    _NN_Key_StateMachine k tick true = k := by
  simp only [_NN_Key_StateMachine, h]
  simp [hc]

theorem smc_rel_f (k : NNKey) (tick : Nat) (h : k.state = KeyState.released) :
    _NN_Key_StateMachine k tick false = { k with state := .released } := by
  simp only [_NN_Key_StateMachine, h]
  simp

theorem smc_prs_f_long (k : NNKey) (tick : Nat) (h : k.state = KeyState.pressed)
    (hc : k.long_time ≤ sub32 tick k.key_last_time) :
    _NN_Key_StateMachine k tick false =
      { k with event := .evLongPressed, state := .released,
               key_last_time := tick, multi_count := 0 } := by
  simp only [_NN_Key_StateMachine, h]
  simp [hc]

theorem smc_prs_f_short (k : NNKey) (tick : Nat) (h : k.state = KeyState.pressed)
    (hc : ¬ k.long_time ≤ sub32 tick k.key_last_time) :
    _NN_Key_StateMachine k tick false =
      { k with state := .multiPressed, multi_count := (k.multi_count + 1) % 16,
               key_last_time := tick } := by
  simp only [_NN_Key_StateMachine, h]
  simp [hc]

theorem smc_prs_t_tolong (k : NNKey) (tick : Nat) (h : k.state = KeyState.pressed)
    (hc : k.long_time ≤ sub32 tick k.key_last_time ∧
      sub32 tick k.key_last_time < k.long_alws_time ∧ 0 < k.long_alws_time) :
    _NN_Key_StateMachine k tick true = { k with state := .longPressed } := by
  simp only [_NN_Key_StateMachine, h]
  simp [hc]

theorem smc_prs_t_toalws (k : NNKey) (tick : Nat) (h : k.state = KeyState.pressed)
    (hc1 : ¬ (k.long_time ≤ sub32 tick k.key_last_time ∧
      sub32 tick k.key_last_time < k.long_alws_time ∧ 0 < k.long_alws_time))
    (hc2 : k.long_alws_time ≤ sub32 tick k.key_last_time ∧ 0 < k.long_alws_time) :
    _NN_Key_StateMachine k tick true =
      { k with state := .longPressedAlws, event := .evLongPressedAlws,
               key_last_time := tick } := by
  simp only [_NN_Key_StateMachine, h]
  simp [hc1, hc2]

theorem smc_prs_t_stay (k : NNKey) (tick : Nat) (h : k.state = KeyState.pressed)
    (hc1 : ¬ (k.long_time ≤ sub32 tick k.key_last_time ∧
      sub32 tick k.key_last_time < k.long_alws_time ∧ 0 < k.long_alws_time))
    (hc2 : ¬ (k.long_alws_time ≤ sub32 tick k.key_last_time ∧ 0 < k.long_alws_time)) :
    _NN_Key_StateMachine k tick true = k := by
  simp only [_NN_Key_StateMachine, h]
  simp [hc1, hc2]

theorem smc_lng_f (k : NNKey) (tick : Nat) (h : k.state = KeyState.longPressed) :
    _NN_Key_StateMachine k tick false =
      { k with event := .evLongPressed, state := .released,
               key_last_time := tick, multi_count := 0 } := by
  simp only [_NN_Key_StateMachine, h]
  simp

theorem smc_lng_t_toalws (k : NNKey) (tick : Nat) (h : k.state = KeyState.longPressed)
    (hc : k.long_alws_time ≤ sub32 tick k.key_last_time ∧ 0 < k.long_alws_time) :
    _NN_Key_StateMachine k tick true =
      { k with state := .longPressedAlws, event := .evLongPressedAlws,
               key_last_time := tick } := by
  simp only [_NN_Key_StateMachine, h]
  simp [hc]

theorem smc_lng_t_stay (k : NNKey) (tick : Nat) (h : k.state = KeyState.longPressed)
    (hc : ¬ (k.long_alws_time ≤ sub32 tick k.key_last_time ∧ 0 < k.long_alws_time)) :
    _NN_Key_StateMachine k tick true = k := by
  simp only [_NN_Key_StateMachine, h]
  simp [hc]

theorem smc_alw_f (k : NNKey) (tick : Nat) (h : k.state = KeyState.longPressedAlws) :
    _NN_Key_StateMachine k tick false =
      { k with key_last_time := tick, state := .released, event := .evInit,
               multi_count := 0 } := by
  simp only [_NN_Key_StateMachine, h]
  simp

theorem smc_alw_t (k : NNKey) (tick : Nat) (h : k.state = KeyState.longPressedAlws) :
    _NN_Key_StateMachine k tick true = { k with event := .evLongPressedAlws } := by
  simp only [_NN_Key_StateMachine, h]
  simp

theorem smc_mlt_t_go (k : NNKey) (tick : Nat) (h : k.state = KeyState.multiPressed)
    (hc : k.debounce_time ≤ sub32 tick k.key_last_time) :
    _NN_Key_StateMachine k tick true =
      { k with state := .pressed, key_last_time := tick } := by
  simp only [_NN_Key_StateMachine, h]
  simp [hc]

theorem smc_mlt_t_stay (k : NNKey) (tick : Nat) (h : k.state = KeyState.multiPressed)
    (hc : ¬ k.debounce_time ≤ sub32 tick k.key_last_time) :
    _NN_Key_StateMachine k tick true = k := by
  simp only [_NN_Key_StateMachine, h]
  simp [hc]

theorem smc_mlt_f_stay (k : NNKey) (tick : Nat) (h : k.state = KeyState.multiPressed)
    (hc : ¬ k.multi_time ≤ sub32 tick k.key_last_time) :
    _NN_Key_StateMachine k tick false = k := by
  simp only [_NN_Key_StateMachine, h]
  simp [hc]

theorem smc_mlt_f_close (k : NNKey) (tick : Nat) (h : k.state = KeyState.multiPressed)
    (hc : k.multi_time ≤ sub32 tick k.key_last_time) :
    _NN_Key_StateMachine k tick false =
      { (if k.multi_count = 1 then { k with event := .evPressed }
         else if k.multi_count = 2 then { k with event := .evDouble }
         else if k.multi_count = 3 then { k with event := .evTriple }
         else if 3 < k.multi_count then { k with event := .evMulti }
         else k) with
        state := .released, key_last_time := tick, multi_count := 0 } := by
  simp only [_NN_Key_StateMachine, h]
  simp [hc]

theorem sm_stable_of (k : NNKey) (tick : Nat) (raw : Bool) (hwf : wfKeyParas k) :
    smStable (_NN_Key_StateMachine k tick raw) tick raw := by
  obtain ⟨hlong, hmulti⟩ := hwf
  intro e l
  rcases Bool.eq_false_or_eq_true raw with hr | hr <;> subst hr
  · cases hs : k.state
    case init =>
      rw [smc_init_t k tick hs, if_neg (by simp)]
      exact smc_prs_t_stay _ tick rfl
        (by show ¬ (k.long_time ≤ sub32 tick tick ∧ sub32 tick tick < k.long_alws_time ∧
              0 < k.long_alws_time); rw [sub32_self]; omega)
        (by show ¬ (k.long_alws_time ≤ sub32 tick tick ∧ 0 < k.long_alws_time);
            rw [sub32_self]; omega)
    case released =>
      by_cases hc : k.debounce_time ≤ sub32 tick k.key_last_time
      · rw [smc_rel_t_go k tick hs hc, if_neg (by simp)]
        exact smc_prs_t_stay _ tick rfl
          (by show ¬ (k.long_time ≤ sub32 tick tick ∧ sub32 tick tick < k.long_alws_time ∧
                0 < k.long_alws_time); rw [sub32_self]; omega)
          (by show ¬ (k.long_alws_time ≤ sub32 tick tick ∧ 0 < k.long_alws_time);
              rw [sub32_self]; omega)
      · rw [smc_rel_t_stay k tick hs hc, if_neg (by simp [hs])]
        exact smc_rel_t_stay _ tick hs hc
    case pressed =>
      by_cases hc1 : k.long_time ≤ sub32 tick k.key_last_time ∧
          sub32 tick k.key_last_time < k.long_alws_time ∧ 0 < k.long_alws_time
      · rw [smc_prs_t_tolong k tick hs hc1, if_neg (by simp)]
        exact smc_lng_t_stay _ tick rfl
          (by show ¬ (k.long_alws_time ≤ sub32 tick k.key_last_time ∧ 0 < k.long_alws_time);
              omega)
      · by_cases hc2 : k.long_alws_time ≤ sub32 tick k.key_last_time ∧ 0 < k.long_alws_time
        · rw [smc_prs_t_toalws k tick hs hc1 hc2, if_pos ⟨rfl, rfl⟩]
          exact smc_alw_t _ tick rfl
        · rw [smc_prs_t_stay k tick hs hc1 hc2, if_neg (by simp [hs])]
          exact smc_prs_t_stay _ tick hs hc1 hc2
    case longPressed =>
      by_cases hc : k.long_alws_time ≤ sub32 tick k.key_last_time ∧ 0 < k.long_alws_time
      · rw [smc_lng_t_toalws k tick hs hc, if_pos ⟨rfl, rfl⟩]
        exact smc_alw_t _ tick rfl
      · rw [smc_lng_t_stay k tick hs hc, if_neg (by simp [hs])]
        exact smc_lng_t_stay _ tick hs hc
    case longPressedAlws =>
      rw [smc_alw_t k tick hs, if_pos ⟨hs, rfl⟩]
      exact smc_alw_t _ tick hs
    case multiPressed =>
      by_cases hc : k.debounce_time ≤ sub32 tick k.key_last_time
      · rw [smc_mlt_t_go k tick hs hc, if_neg (by simp)]
        exact smc_prs_t_stay _ tick rfl
          (by show ¬ (k.long_time ≤ sub32 tick tick ∧ sub32 tick tick < k.long_alws_time ∧
                0 < k.long_alws_time); rw [sub32_self]; omega)
          (by show ¬ (k.long_alws_time ≤ sub32 tick tick ∧ 0 < k.long_alws_time);
              rw [sub32_self]; omega)
      · rw [smc_mlt_t_stay k tick hs hc, if_neg (by simp [hs])]
        exact smc_mlt_t_stay _ tick hs hc
  · cases hs : k.state
    case init =>
      rw [if_neg (by simp), smc_init_f k tick hs]
      exact smc_rel_f _ tick rfl
    case released =>
      rw [if_neg (by simp), smc_rel_f k tick hs]
      exact smc_rel_f _ tick rfl
    case pressed =>
      by_cases hc : k.long_time ≤ sub32 tick k.key_last_time
      · rw [if_neg (by simp), smc_prs_f_long k tick hs hc]
        exact smc_rel_f _ tick rfl
      · rw [if_neg (by simp), smc_prs_f_short k tick hs hc]
        exact smc_mlt_f_stay _ tick rfl
          (by show ¬ k.multi_time ≤ sub32 tick tick; rw [sub32_self]; omega)
    case longPressed =>
      rw [if_neg (by simp), smc_lng_f k tick hs]
      exact smc_rel_f _ tick rfl
    case longPressedAlws =>
      rw [if_neg (by simp), smc_alw_f k tick hs]
      exact smc_rel_f _ tick rfl
    case multiPressed =>
      by_cases hc : k.multi_time ≤ sub32 tick k.key_last_time
      · rw [if_neg (by simp), smc_mlt_f_close k tick hs hc]
        exact smc_rel_f _ tick rfl
      · rw [if_neg (by simp), smc_mlt_f_stay k tick hs hc]
        exact smc_mlt_f_stay _ tick hs hc

theorem keyEvent_cases (k : NNKey) (i tick lt : Nat) :
    ((_NN_Key_Event k i tick lt).1 = k ∨
      (_NN_Key_Event k i tick lt).1 = { k with event := KeyEvent.evInit }) ∧
    ((_NN_Key_Event k i tick lt).1.event = KeyEvent.evInit ∨
      (_NN_Key_Event k i tick lt).1.event = KeyEvent.evLongPressedAlws) ∧
    (k.event = KeyEvent.evInit → _NN_Key_Event k i tick lt = (k, lt, [])) ∧
    (k.event = KeyEvent.evLongPressedAlws → (_NN_Key_Event k i tick lt).1 = k) ∧
    (∀ e ∈ (_NN_Key_Event k i tick lt).2.2, e = LogEntry.keyCb tick i k.event) := by
  simp only [_NN_Key_Event]
  by_cases h0 : k.event = KeyEvent.evInit
  · rw [if_pos h0]
    refine ⟨Or.inl rfl, Or.inl ?_, fun _ => rfl, fun ha => rfl, by simp⟩
    exact h0
  · rw [if_neg h0]
    by_cases hm : k.callback_mask.testBit (evIdx k.event) = true ∧
        k.callbacks.getD (evIdx k.event) false = true
    · rw [if_pos hm]
      by_cases ha : k.event = KeyEvent.evLongPressedAlws
      · rw [if_pos ha]
        by_cases ht : KEY_LONG_PRESS_ALWS_CB ≤ sub32 tick lt
        · rw [if_pos ht]
          exact ⟨Or.inl rfl, Or.inr ha, fun h => absurd h h0, fun _ => rfl, by simp⟩
        · rw [if_neg ht]
          exact ⟨Or.inl rfl, Or.inr ha, fun h => absurd h h0, fun _ => rfl, by simp⟩
      · rw [if_neg ha]
        exact ⟨Or.inr rfl, Or.inl rfl, fun h => absurd h h0, fun h => absurd h ha, by simp⟩
    · rw [if_neg hm]
      by_cases ha : k.event = KeyEvent.evLongPressedAlws
      · rw [if_neg (not_not_intro ha)]
        exact ⟨Or.inl rfl, Or.inr ha, fun h => absurd h h0, fun _ => rfl, by simp⟩
      · rw [if_pos ha]
        exact ⟨Or.inr rfl, Or.inl rfl, fun h => absurd h h0, fun h => absurd h ha, by simp⟩

theorem dispatchAll_stable (tick : Nat) : ∀ (ks : List NNKey) (i lt : Nat),
    (∀ k ∈ ks, k.lock_flag = true ∨ k.event = KeyEvent.evInit ∨
      k.event = KeyEvent.evLongPressedAlws) →
    (dispatchAll tick i lt ks).1 = ks ∧
    (∀ e ∈ (dispatchAll tick i lt ks).2.2, isAlwsEntry e = true) := by
  intro ks
  induction ks with
  | nil =>
    intro i lt _
    exact ⟨rfl, by simp [dispatchAll]⟩
  | cons k ks ih =>
    intro i lt hall
    have hk := hall k (List.mem_cons_self k ks)
    have hrest := fun x hx => hall x (List.mem_cons_of_mem _ hx)
    by_cases hl : k.lock_flag = true
    · simp only [dispatchAll, if_pos hl]
      obtain ⟨h1, h2⟩ := ih (i + 1) lt hrest
      exact ⟨by rw [h1], h2⟩
    · simp only [dispatchAll, if_neg hl]
      rcases hk with hk | hk | hk
      · exact absurd hk hl
      · have he := (keyEvent_cases k i tick lt).2.2.1 hk
        rw [he]
        obtain ⟨h1, h2⟩ := ih (i + 1) lt hrest
        refine ⟨by rw [h1], ?_⟩
        intro e he'
        rcases List.mem_append.mp he' with h | h
        · simp at h
        · exact h2 e h
      · have h1 := (keyEvent_cases k i tick lt).2.2.2.1 hk
        have hlog := (keyEvent_cases k i tick lt).2.2.2.2
        obtain ⟨ih1, ih2⟩ := ih (i + 1) ((_NN_Key_Event k i tick lt).2.1) hrest
        refine ⟨by rw [h1, ih1], ?_⟩
        intro e he'
        rcases List.mem_append.mp he' with h | h
        · have := hlog e h
          subst this
          simp [isAlwsEntry, hk]
        · exact ih2 e h

theorem dispatchAll_post (tick : Nat) : ∀ (ks : List NNKey) (i lt : Nat),
    (dispatchAll tick i lt ks).1.length = ks.length ∧
    (∀ j, (dispatchAll tick i lt ks).1.getD j NN_Key_Init = ks.getD j NN_Key_Init ∨
      (dispatchAll tick i lt ks).1.getD j NN_Key_Init =
        { ks.getD j NN_Key_Init with event := KeyEvent.evInit }) ∧
    (∀ j, (ks.getD j NN_Key_Init).lock_flag = true →
      (dispatchAll tick i lt ks).1.getD j NN_Key_Init = ks.getD j NN_Key_Init) ∧
    (∀ j, (ks.getD j NN_Key_Init).lock_flag = false →
      ((dispatchAll tick i lt ks).1.getD j NN_Key_Init).event = KeyEvent.evInit ∨
      ((dispatchAll tick i lt ks).1.getD j NN_Key_Init).event = KeyEvent.evLongPressedAlws) := by
  intro ks
  induction ks with
  | nil =>
    intro i lt
    exact ⟨rfl, fun j => Or.inl rfl, fun j _ => rfl, fun j _ => Or.inl rfl⟩
  | cons k ks ih =>
    intro i lt
    by_cases hl : k.lock_flag = true
    · simp only [dispatchAll, if_pos hl]
      obtain ⟨ihL, ih2, ih3, ih4⟩ := ih (i + 1) lt
      refine ⟨by simp [ihL], ?_, ?_, ?_⟩
      · intro j
        cases j with
        | zero => exact Or.inl rfl
        | succ j => exact ih2 j
      · intro j hj
        cases j with
        | zero => rfl
        | succ j => exact ih3 j hj
      · intro j hj
        cases j with
        | zero => simp only [List.getD_cons_zero] at hj; rw [hl] at hj; exact absurd hj (by decide)
        | succ j => exact ih4 j hj
    · simp only [dispatchAll, if_neg hl]
      obtain ⟨ihL, ih2, ih3, ih4⟩ := ih (i + 1) ((_NN_Key_Event k i tick lt).2.1)
      refine ⟨by simp [ihL], ?_, ?_, ?_⟩
      · intro j
        cases j with
        | zero => exact (keyEvent_cases k i tick lt).1
        | succ j => exact ih2 j
      · intro j hj
        cases j with
        | zero =>
          simp only [List.getD_cons_zero] at hj
          exact absurd hj hl
        | succ j => exact ih3 j hj
      · intro j hj
        cases j with
        | zero => exact (keyEvent_cases k i tick lt).2.1
        | succ j => exact ih4 j hj

theorem foldl_fixed_of_mem {α β : Type} (f : α → β → α) (b : α) :
    ∀ (l : List β), (∀ x ∈ l, f b x = b) → l.foldl f b = b := by
  intro l
  induction l with
  | nil => intro _; rfl
  | cons x xs ih =>
    intro h
    rw [List.foldl_cons, h x (List.mem_cons_self x xs)]
    exact ih fun y hy => h y (List.mem_cons_of_mem _ hy)

theorem getD_map_fixed {α : Type} (f : α → α) (d : α) (hf : f d = d) :
    ∀ (l : List α) (i : Nat), (l.map f).getD i d = f (l.getD i d) := by
  intro l
  induction l with
  | nil => intro i; simp [hf]
  | cons x xs ih =>
    intro i
    cases i with
    | zero => rfl
    | succ i => simpa using ih i

theorem getD_mem_of_lt {α : Type} (l : List α) (d : α) (i : Nat)
    (h : i < l.length) : l.getD i d ∈ l := by
  rw [List.getD_eq_getElem l d h]
  exact List.getElem_mem h

theorem forall_mem_of_getD {α : Type} (l : List α) (d : α) (P : α → Prop)
    (h : ∀ i, i < l.length → P (l.getD i d)) : ∀ x ∈ l, P x := by
  intro x hx
  obtain ⟨i, hi, rfl⟩ := List.mem_iff_getElem.mp hx
  rw [← List.getD_eq_getElem l d hi]
  exact h i hi

theorem smAll_length (tick : Nat) (raws : Nat → Bool) :
    ∀ (ks : List NNKey) (i : Nat), (smAll tick raws i ks).length = ks.length := by
  intro ks
  induction ks with
  | nil => intro i; rfl
  | cons k ks ih => intro i; simp [smAll, ih]

theorem smAll_getD (tick : Nat) (raws : Nat → Bool) :
    ∀ (ks : List NNKey) (i j : Nat), j < ks.length →
      (smAll tick raws i ks).getD j NN_Key_Init =
        _NN_Key_StateMachine (ks.getD j NN_Key_Init) tick (raws (i + j)) := by
  intro ks
  induction ks with
  | nil => intro i j h; simp at h
  | cons k ks ih =>
    intro i j h
    cases j with
    | zero => rfl
    | succ j =>
      have := ih (i + 1) j (by simpa using h)
      simpa [smAll, show i + 1 + j = i + (j + 1) from by omega] using this

theorem mem_memIdxs (c : NNComb) (i : Nat) :
    i ∈ memIdxs c ↔
      ∃ j, j < c.combo_member_nbr ∧ c.combo_member.getD j none = some i := by
  simp [memIdxs, List.mem_filterMap, List.mem_range]

theorem memFold_succ (f : NNKey → NNKey) (mems : List (Option Nat)) (n : Nat)
    (ks : List NNKey) :
    memFold f mems (n + 1) ks =
      match mems.getD n none with
      | none => memFold f mems n ks
      | some mi => modifyNth f mi (memFold f mems n ks) := by
  unfold memFold
  rw [List.range_succ, List.foldl_append, List.foldl_cons, List.foldl_nil]

theorem memFold_length (f : NNKey → NNKey) (mems : List (Option Nat)) :
    ∀ (nbr : Nat) (ks : List NNKey), (memFold f mems nbr ks).length = ks.length := by
  intro nbr
  induction nbr with
  | zero => intro ks; rfl
  | succ n ih =>
    intro ks
    rw [memFold_succ]
    cases mems.getD n none with
    | none => exact ih ks
    | some mi => rw [modifyNth_length]; exact ih ks

theorem memFold_getD (f : NNKey → NNKey) (mems : List (Option Nat))
    (hid : ∀ x, f (f x) = f x) :
    ∀ (nbr : Nat) (ks : List NNKey) (i : Nat),
      (memFold f mems nbr ks).getD i NN_Key_Init = ks.getD i NN_Key_Init ∨
      (memFold f mems nbr ks).getD i NN_Key_Init = f (ks.getD i NN_Key_Init) := by
  intro nbr
  induction nbr with
  | zero => intro ks i; exact Or.inl rfl
  | succ n ih =>
    intro ks i
    rw [memFold_succ]
    cases mems.getD n none with
    | none => exact ih ks i
    | some mi =>
      rw [getD_modifyNth]
      by_cases h : i = mi ∧ mi < (memFold f mems n ks).length
      · rw [if_pos h]
        rcases ih ks i with h' | h'
        · exact Or.inr (by rw [h'])
        · exact Or.inr (by rw [h', hid])
      · rw [if_neg h]
        exact ih ks i

theorem memFold_getD_not_mem (f : NNKey → NNKey) (mems : List (Option Nat)) :
    ∀ (nbr : Nat) (ks : List NNKey) (i : Nat),
      (∀ j, j < nbr → mems.getD j none ≠ some i) →
      (memFold f mems nbr ks).getD i NN_Key_Init = ks.getD i NN_Key_Init := by
  intro nbr
  induction nbr with
  | zero => intro ks i _; rfl
  | succ n ih =>
    intro ks i hne
    rw [memFold_succ]
    cases hs : mems.getD n none with
    | none => exact ih ks i fun j hj => hne j (by omega)
    | some mi =>
      rw [getD_modifyNth]
      have hmi : i ≠ mi := by
        intro h
        exact hne n (by omega) (h ▸ hs)
      rw [if_neg (by tauto)]
      exact ih ks i fun j hj => hne j (by omega)

theorem memFold_getD_mem (f : NNKey → NNKey) (mems : List (Option Nat))
    (hid : ∀ x, f (f x) = f x) :
    ∀ (nbr : Nat) (ks : List NNKey) (i j : Nat), j < nbr →
      mems.getD j none = some i → i < ks.length →
      (memFold f mems nbr ks).getD i NN_Key_Init = f (ks.getD i NN_Key_Init) := by
  intro nbr
  induction nbr with
  | zero => intro ks i j hj; omega
  | succ n ih =>
    intro ks i j hj hs hi
    rw [memFold_succ]
    by_cases hjn : j < n
    · have hin := ih ks i j hjn hs hi
      cases mems.getD n none with
      | none => exact hin
      | some mi =>
        rw [getD_modifyNth]
        by_cases h : i = mi ∧ mi < (memFold f mems n ks).length
        · rw [if_pos h, hin, hid]
        · rw [if_neg h]; exact hin
    · have hjn' : j = n := by omega
      subst hjn'
      rw [hs, getD_modifyNth,
        if_pos ⟨rfl, by rw [memFold_length]; exact hi⟩]
      rcases memFold_getD f mems hid j ks i with h' | h'
      · rw [h']
      · rw [h', hid]

theorem lockMembers_eq (mems : List (Option Nat)) (nbr : Nat) (ks : List NNKey) :
    lockMembers mems nbr ks =
      memFold (fun k => { k with lock_flag := true }) mems nbr ks := rfl

theorem clearMembers_eq (mems : List (Option Nat)) (nbr : Nat) (ks : List NNKey) :
    clearMembers mems nbr ks =
      memFold (fun k => { k with event := KeyEvent.evInit, lock_flag := false })
        mems nbr ks := rfl

theorem unlockMembers_eq (mems : List (Option Nat)) (nbr : Nat) (ks : List NNKey) :
    unlockMembers mems nbr ks =
      memFold (fun k => { k with lock_flag := false }) mems nbr ks := rfl

theorem lockOnly_trans (a b c : NNKey) (h1 : lockOnly a b) (h2 : lockOnly b c) :
    lockOnly a c := by
  rcases h1 with h1 | h1 <;> rcases h2 with h2 | h2 <;> subst h1 <;> subst h2 <;>
    simp [lockOnly]

theorem lockOnly_fields (a b : NNKey) (h : lockOnly a b) :
    b.event = a.event ∧ b.state = a.state ∧ b.key_last_time = a.key_last_time ∧
    b.multi_count = a.multi_count ∧ b.is_member = a.is_member := by
  rcases h with h | h <;> subst h <;> exact ⟨rfl, rfl, rfl, rfl, rfl⟩

theorem lockOnly_lock_mono (a b : NNKey) (h : lockOnly a b)
    (hl : a.lock_flag = true) : b.lock_flag = true := by
  rcases h with h | h <;> subst h
  · exact hl
  · rfl

theorem scan_step_fix (tick window exc : Nat) (keys : List NNKey)
    (mems : List (Option Nat)) (st : CLoop) (j : Nat)
    (h0 : st.first = 0 → pressedSlot keys mems j = false)
    (hw : st.first ≠ 0 → ¬ window < sub32 tick st.first)
    (habs : st.first ≠ 0 → pressedSlot keys mems j = true →
      (st.now ||| (1 <<< j)) % 16 = st.now)
    (hne : pressedSlot keys mems j = true → st.now ≠ exc) :
    _NN_Combo_MemberScan tick window exc keys mems st j = st := by
  cases hs : mems.getD j none with
  | none => simp only [_NN_Combo_MemberScan, hs]
  | some mi =>
    simp only [_NN_Combo_MemberScan, hs]
    by_cases hp : (keys.getD mi NN_Key_Init).event = KeyEvent.evPressed
    · have hps : pressedSlot keys mems j = true := by
        simp only [pressedSlot, hs, decide_eq_true_eq]
        exact hp
      rw [if_pos hp]
      by_cases hf : st.first = 0
      · exact absurd (h0 hf) (by simp [hps])
      · rw [if_neg hf, if_pos (Nat.le_of_not_lt (hw hf)), habs hf hps,
          show ({ st with now := st.now } : CLoop) = st from rfl,
          if_neg (hne hps)]
    · rw [if_neg hp]

theorem scan_fold_fix (tick ci : Nat) (c : NNComb) (keys : List NNKey)
    (hst : comboStable tick c keys) :
    (List.range c.combo_member_nbr).foldl
      (_NN_Combo_MemberScan tick c.combo_window c.combo_value_excepted keys
        c.combo_member)
      { first := c.combo_mem_first, now := c.combo_value_now, trigger := c.combo_trigger, active := 0 < c.combo_mem_first } =
      ({ first := c.combo_mem_first, now := c.combo_value_now, trigger := c.combo_trigger, active := 0 < c.combo_mem_first } : CLoop) := by
  obtain ⟨h1, h2, h3⟩ := hst
  apply foldl_fixed_of_mem
  intro j hj
  rw [List.mem_range] at hj
  have hwit : pressedSlot keys c.combo_member j = true →
      ∃ mi, c.combo_member.getD j none = some mi ∧
        (keys.getD mi NN_Key_Init).event = KeyEvent.evPressed := by
    intro hps
    rcases hcase : c.combo_member.getD j none with _ | mi
    · simp only [pressedSlot, hcase] at hps
      exact absurd hps (by decide)
    · simp only [pressedSlot, hcase, decide_eq_true_eq] at hps
      exact ⟨mi, rfl, hps⟩
  apply scan_step_fix
  · intro hf
    by_cases hps : pressedSlot keys c.combo_member j = true
    · obtain ⟨mi, hcase, hp⟩ := hwit hps
      exact absurd hp (h2 hf j hj mi hcase)
    · exact Bool.eq_false_iff.mpr hps
  · intro hf
    exact (h3 hf).1
  · intro hf hps
    obtain ⟨mi, hcase, hp⟩ := hwit hps
    exact (h3 hf).2.1 j hj mi hcase hp
  · intro hps
    obtain ⟨mi, hcase, hp⟩ := hwit hps
    by_cases hf : c.combo_mem_first = 0
    · exact absurd hp (h2 hf j hj mi hcase)
    · exact (h3 hf).2.2 ⟨j, hj, mi, hcase, hp⟩

theorem processOne_of_stable_eq (tick ci : Nat) (c : NNComb) (keys : List NNKey)
    (hst : comboStable tick c keys) :
    _NN_Combo_ProcessOne tick ci c keys =
      (c,
        (if 0 < c.combo_mem_first then
          lockMembers c.combo_member c.combo_member_nbr keys
        else keys),
        []) := by
  have h1 := hst.1
  have hfold := scan_fold_fix tick ci c keys hst
  simp only [_NN_Combo_ProcessOne]
  rw [hfold]
  have hTrig :
      ¬ (({ first := c.combo_mem_first, now := c.combo_value_now, trigger := c.combo_trigger, active := 0 < c.combo_mem_first } : CLoop).trigger = true) := by
    simp [h1]
  rw [if_neg hTrig]
  by_cases hf : c.combo_mem_first = 0
  · rw [if_neg (by simp [hf]), if_neg (by simp [hf]), if_neg (by simp [hf])]
  · rw [if_neg (by
      intro hcon
      exact (hst.2.2 hf).1 hcon.2),
      if_pos (by simp [Nat.pos_of_ne_zero hf]),
      if_pos (Nat.pos_of_ne_zero hf)]

theorem comboStable_congr (tick : Nat) (c : NNComb) (ks ks' : List NNKey)
    (hev : ∀ i, (ks'.getD i NN_Key_Init).event = (ks.getD i NN_Key_Init).event)
    (h : comboStable tick c ks) : comboStable tick c ks' := by
  obtain ⟨h1, h2, h3⟩ := h
  refine ⟨h1, ?_, ?_⟩
  · intro hf j hj mi hs
    rw [hev mi]
    exact h2 hf j hj mi hs
  · intro hf
    obtain ⟨ha, hb, hc⟩ := h3 hf
    refine ⟨ha, ?_, ?_⟩
    · intro j hj mi hs hp
      rw [hev mi] at hp
      exact hb j hj mi hs hp
    · rintro ⟨j, hj, mi, hs, hp⟩
      rw [hev mi] at hp
      exact hc ⟨j, hj, mi, hs, hp⟩

theorem processOne_stable (tick ci : Nat) (c : NNComb) (keys : List NNKey)
    (hst : comboStable tick c keys) :
    (_NN_Combo_ProcessOne tick ci c keys).1 = c ∧
    (_NN_Combo_ProcessOne tick ci c keys).2.2 = [] ∧
    (∀ i, lockOnly (keys.getD i NN_Key_Init)
      ((_NN_Combo_ProcessOne tick ci c keys).2.1.getD i NN_Key_Init)) ∧
    (_NN_Combo_ProcessOne tick ci c keys).2.1.length = keys.length ∧
    (c.combo_mem_first ≠ 0 → ∀ i, i < keys.length → i ∈ memIdxs c →
      ((_NN_Combo_ProcessOne tick ci c keys).2.1.getD i NN_Key_Init).lock_flag =
        true) := by
  rw [processOne_of_stable_eq tick ci c keys hst]
  by_cases hf : 0 < c.combo_mem_first
  · rw [if_pos hf]
    refine ⟨rfl, rfl, ?_, ?_, ?_⟩
    · intro i
      rw [lockMembers_eq]
      exact memFold_getD (fun k => { k with lock_flag := true }) c.combo_member
        (fun x => rfl) c.combo_member_nbr keys i
    · rw [lockMembers_eq, memFold_length]
    · intro _ i hi hmem
      obtain ⟨j, hj, hs⟩ := (mem_memIdxs c i).mp hmem
      rw [lockMembers_eq,
        memFold_getD_mem (fun k => { k with lock_flag := true }) c.combo_member
          (fun x => rfl) c.combo_member_nbr keys i j hj hs hi]
  · rw [if_neg hf]
    refine ⟨rfl, rfl, fun i => Or.inl rfl, rfl, ?_⟩
    intro hne
    exact absurd (Nat.pos_of_ne_zero hne) hf

theorem processAll_stable (tick : Nat) :
    ∀ (cs : List NNComb) (ci : Nat) (ks : List NNKey),
      (∀ c ∈ cs, comboStable tick c ks) →
      (_NN_Combo_Process tick ci cs ks).1 = cs ∧
      (_NN_Combo_Process tick ci cs ks).2.2 = [] ∧
      (∀ i, lockOnly (ks.getD i NN_Key_Init)
        ((_NN_Combo_Process tick ci cs ks).2.1.getD i NN_Key_Init)) ∧
      (_NN_Combo_Process tick ci cs ks).2.1.length = ks.length ∧
      (∀ c ∈ cs, c.combo_mem_first ≠ 0 → ∀ i, i < ks.length → i ∈ memIdxs c →
        ((_NN_Combo_Process tick ci cs ks).2.1.getD i NN_Key_Init).lock_flag =
          true) := by
  intro cs
  induction cs with
  | nil =>
    intro ci ks _
    exact ⟨rfl, rfl, fun i => Or.inl rfl, rfl, fun c hc => absurd hc (by simp)⟩
  | cons c cs ih =>
    intro ci ks hall
    obtain ⟨e1, e2, e3, e4, e5⟩ :=
      processOne_stable tick ci c ks (hall c (List.mem_cons_self c cs))
    have hev : ∀ i,
        (((_NN_Combo_ProcessOne tick ci c ks).2.1.getD i NN_Key_Init)).event =
          (ks.getD i NN_Key_Init).event := fun i => (lockOnly_fields _ _ (e3 i)).1
    have htail : ∀ c' ∈ cs,
        comboStable tick c' (_NN_Combo_ProcessOne tick ci c ks).2.1 := by
      intro c' hc'
      exact comboStable_congr tick c' ks _ hev
        (hall c' (List.mem_cons_of_mem _ hc'))
    obtain ⟨i1, i2, i3, i4, i5⟩ := ih (ci + 1) _ htail
    simp only [_NN_Combo_Process]
    refine ⟨by rw [e1, i1], by rw [e2, i2]; rfl, ?_, by rw [i4, e4], ?_⟩
    · intro i
      exact lockOnly_trans _ _ _ (e3 i) (i3 i)
    · intro c' hc' hne i hi hmem
      rcases List.mem_cons.mp hc' with hh | hh
      · subst hh
        have hlock := e5 hne i hi hmem
        exact lockOnly_lock_mono _ _ (i3 i) hlock
      · exact i5 c' hh hne i (by rw [e4]; exact hi) hmem

theorem bit_or_facts (a j n : Nat) (ha : a < 16) (hj : j < 4) (hn : n < 4) :
    (((1 <<< n) % 16 ||| (1 <<< n)) % 16 = (1 <<< n) % 16) ∧
    (((a ||| (1 <<< n)) % 16 ||| (1 <<< n)) % 16 = (a ||| (1 <<< n)) % 16) ∧
    ((a ||| (1 <<< j)) % 16 = a →
      ((a ||| (1 <<< n)) % 16 ||| (1 <<< j)) % 16 = (a ||| (1 <<< n)) % 16) ∧
    ((a ||| (1 <<< n)) % 16 < 16) ∧ ((1 <<< n) % 16 < 16) := by
  interval_cases a <;> interval_cases j <;> interval_cases n <;> decide

theorem scanFold_succ (tick window exc : Nat) (keys : List NNKey)
    (mems : List (Option Nat)) (st0 : CLoop) (n : Nat) :
    scanFoldN tick window exc keys mems st0 (n + 1) =
      _NN_Combo_MemberScan tick window exc keys mems
        (scanFoldN tick window exc keys mems st0 n) n := by
  unfold scanFoldN
  rw [List.range_succ, List.foldl_append, List.foldl_cons, List.foldl_nil]

theorem pressedSlot_true_iff (keys : List NNKey) (mems : List (Option Nat))
    (j : Nat) :
    pressedSlot keys mems j = true ↔
      ∃ mi, mems.getD j none = some mi ∧
        (keys.getD mi NN_Key_Init).event = KeyEvent.evPressed := by
  constructor
  · intro hps
    rcases hcase : mems.getD j none with _ | mi
    · simp only [pressedSlot, hcase] at hps
      exact absurd hps (by decide)
    · simp only [pressedSlot, hcase, decide_eq_true_eq] at hps
      exact ⟨mi, rfl, hps⟩
  · rintro ⟨mi, hs, hp⟩
    simp only [pressedSlot, hs, decide_eq_true_eq]
    exact hp

theorem scan_step_not_pressed (tick window exc : Nat) (keys : List NNKey)
    (mems : List (Option Nat)) (st : CLoop) (j : Nat)
    (hps : pressedSlot keys mems j = false) :
    _NN_Combo_MemberScan tick window exc keys mems st j = st := by
  rcases hcase : mems.getD j none with _ | mi
  · simp only [_NN_Combo_MemberScan, hcase]
  · simp only [pressedSlot, hcase, decide_eq_false_iff_not] at hps
    simp only [_NN_Combo_MemberScan, hcase, if_neg hps]

theorem scan_step_p1 (tick window exc : Nat) (keys : List NNKey)
    (mems : List (Option Nat)) (st : CLoop) (j mi : Nat)
    (hs : mems.getD j none = some mi)
    (hp : (keys.getD mi NN_Key_Init).event = KeyEvent.evPressed)
    (hf : st.first = 0) (hm : (1 <<< j) % 16 = exc) :
    _NN_Combo_MemberScan tick window exc keys mems st j =
      { first := 0, now := 0, trigger := true, active := true } := by
  simp only [_NN_Combo_MemberScan, hs, if_pos hp, if_pos hf]
  rw [if_pos (by simpa using hm)]

theorem scan_step_p2 (tick window exc : Nat) (keys : List NNKey)
    (mems : List (Option Nat)) (st : CLoop) (j mi : Nat)
    (hs : mems.getD j none = some mi)
    (hp : (keys.getD mi NN_Key_Init).event = KeyEvent.evPressed)
    (hf : st.first = 0) (hm : (1 <<< j) % 16 ≠ exc) :
    _NN_Combo_MemberScan tick window exc keys mems st j =
      { first := tick, now := (1 <<< j) % 16, trigger := st.trigger,
        active := true } := by
  simp only [_NN_Combo_MemberScan, hs, if_pos hp, if_pos hf]
  rw [if_neg (by simpa using hm)]

theorem scan_step_p3 (tick window exc : Nat) (keys : List NNKey)
    (mems : List (Option Nat)) (st : CLoop) (j mi : Nat)
    (hs : mems.getD j none = some mi)
    (hp : (keys.getD mi NN_Key_Init).event = KeyEvent.evPressed)
    (hf : st.first ≠ 0) (hw : sub32 tick st.first ≤ window)
    (hm : (st.now ||| (1 <<< j)) % 16 = exc) :
    _NN_Combo_MemberScan tick window exc keys mems st j =
      { first := 0, now := 0, trigger := true, active := st.active } := by
  simp only [_NN_Combo_MemberScan, hs, if_pos hp, if_neg hf, if_pos hw]
  rw [if_pos (by simpa using hm)]

theorem scan_step_p4 (tick window exc : Nat) (keys : List NNKey)
    (mems : List (Option Nat)) (st : CLoop) (j mi : Nat)
    (hs : mems.getD j none = some mi)
    (hp : (keys.getD mi NN_Key_Init).event = KeyEvent.evPressed)
    (hf : st.first ≠ 0) (hw : sub32 tick st.first ≤ window)
    (hm : (st.now ||| (1 <<< j)) % 16 ≠ exc) :
    _NN_Combo_MemberScan tick window exc keys mems st j =
      { st with now := (st.now ||| (1 <<< j)) % 16 } := by
  simp only [_NN_Combo_MemberScan, hs, if_pos hp, if_neg hf, if_pos hw]
  rw [if_neg (by simpa using hm)]

theorem scan_step_p5 (tick window exc : Nat) (keys : List NNKey)
    (mems : List (Option Nat)) (st : CLoop) (j mi : Nat)
    (hs : mems.getD j none = some mi)
    (hp : (keys.getD mi NN_Key_Init).event = KeyEvent.evPressed)
    (hf : st.first ≠ 0) (hw : ¬ sub32 tick st.first ≤ window)
    (hm : st.now = exc) :
    _NN_Combo_MemberScan tick window exc keys mems st j =
      { st with trigger := true, now := 0, first := 0 } := by
  simp only [_NN_Combo_MemberScan, hs, if_pos hp, if_neg hf, if_neg hw]
  rw [if_pos hm]

theorem scan_step_p6 (tick window exc : Nat) (keys : List NNKey)
    (mems : List (Option Nat)) (st : CLoop) (j mi : Nat)
    (hs : mems.getD j none = some mi)
    (hp : (keys.getD mi NN_Key_Init).event = KeyEvent.evPressed)
    (hf : st.first ≠ 0) (hw : ¬ sub32 tick st.first ≤ window)
    (hm : st.now ≠ exc) :
    _NN_Combo_MemberScan tick window exc keys mems st j = st := by
  simp only [_NN_Combo_MemberScan, hs, if_pos hp, if_neg hf, if_neg hw]
  rw [if_neg hm]

theorem scanInv (tick window exc nbr : Nat) (keys : List NNKey)
    (mems : List (Option Nat)) (f0 n0 : Nat) (t0 a0 : Bool)
    (htick : 1 ≤ tick) (hn0 : n0 < 16) (hnbr : nbr ≤ 4)
    (ha0 : a0 = true → f0 ≠ 0) :
    ∀ n, n ≤ nbr →
      scanInvP tick window exc f0 keys mems n
        (scanFoldN tick window exc keys mems
          { first := f0, now := n0, trigger := t0, active := a0 } n) := by
  intro n
  induction n with
  | zero =>
    intro _
    refine ⟨hn0, ?_, ?_⟩
    · intro ht
      refine ⟨fun hf => ⟨hf, fun j hj => absurd hj (by omega)⟩, ?_, ?_⟩
      · rintro ⟨j, hj, -⟩
        omega
      · intro _ j hj
        omega
    · intro ha
      exact Or.inr (ha0 ha)
  | succ n ih =>
    intro hle
    have hn4 : n < 4 := by omega
    have htick' : tick ≠ 0 := by omega
    have prev := ih (by omega)
    rw [scanFold_succ]
    set st := scanFoldN tick window exc keys mems
      { first := f0, now := n0, trigger := t0, active := a0 } n with hst
    obtain ⟨pNow, pTrig, pAct⟩ := prev
    by_cases hps : pressedSlot keys mems n = true
    · obtain ⟨mi, hs, hp⟩ := (pressedSlot_true_iff keys mems n).mp hps
      by_cases hf : st.first = 0
      · by_cases hm : (1 <<< n) % 16 = exc
        · rw [scan_step_p1 tick window exc keys mems st n mi hs hp hf hm]
          exact ⟨show (0:Nat) < 16 by decide,
            fun ht => absurd (show (true:Bool) = false from ht) (by decide),
            fun _ => Or.inl rfl⟩
        · rw [scan_step_p2 tick window exc keys mems st n mi hs hp hf hm]
          refine ⟨(bit_or_facts 0 0 n (by decide) (by decide) hn4).2.2.2.2, ?_, ?_⟩
          · intro ht
            refine ⟨fun hcon => absurd hcon htick', ?_, ?_⟩
            · intro _
              exact hm
            · intro _ j hj hpj
              rcases Nat.lt_succ_iff_lt_or_eq.mp hj with hj' | hj'
              · obtain ⟨-, hnop⟩ := (pTrig ht).1 hf
                exact absurd hpj (by simp [hnop j hj'])
              · rw [hj']
                exact (bit_or_facts 0 0 n (by decide) (by decide) hn4).1
          · intro _
            exact Or.inr htick'
      · by_cases hw : sub32 tick st.first ≤ window
        · by_cases hm : (st.now ||| (1 <<< n)) % 16 = exc
          · rw [scan_step_p3 tick window exc keys mems st n mi hs hp hf hw hm]
            exact ⟨show (0:Nat) < 16 by decide,
              fun ht => absurd (show (true:Bool) = false from ht) (by decide),
              fun _ => Or.inl rfl⟩
          · rw [scan_step_p4 tick window exc keys mems st n mi hs hp hf hw hm]
            refine ⟨(bit_or_facts st.now 0 n pNow (by decide) hn4).2.2.2.1, ?_, ?_⟩
            · intro ht
              refine ⟨fun hcon => absurd hcon hf, ?_, ?_⟩
              · intro _
                exact hm
              · intro hguard j hj hpj
                rcases Nat.lt_succ_iff_lt_or_eq.mp hj with hj' | hj'
                · have habs := (pTrig ht).2.2 hguard j hj' hpj
                  exact (bit_or_facts st.now j n pNow (by omega) hn4).2.2.1 habs
                · rw [hj']
                  exact (bit_or_facts st.now 0 n pNow (by decide) hn4).2.1
            · intro _
              exact Or.inr hf
        · by_cases hm : st.now = exc
          · rw [scan_step_p5 tick window exc keys mems st n mi hs hp hf hw hm]
            exact ⟨show (0:Nat) < 16 by decide,
              fun ht => absurd (show (true:Bool) = false from ht) (by decide),
              fun _ => Or.inl rfl⟩
          · rw [scan_step_p6 tick window exc keys mems st n mi hs hp hf hw hm]
            refine ⟨pNow, ?_, pAct⟩
            intro ht
            refine ⟨fun hcon => absurd hcon hf, fun _ => hm, ?_⟩
            intro hguard j hj hpj
            exact absurd (Nat.lt_of_not_le hw) hguard
    · have hps' : pressedSlot keys mems n = false := Bool.eq_false_iff.mpr hps
      rw [scan_step_not_pressed tick window exc keys mems st n hps']
      refine ⟨pNow, ?_, pAct⟩
      intro ht
      obtain ⟨q1, q2, q3⟩ := pTrig ht
      refine ⟨?_, ?_, ?_⟩
      · intro hcon
        obtain ⟨hf0, hnop⟩ := q1 hcon
        refine ⟨hf0, fun j hj => ?_⟩
        rcases Nat.lt_succ_iff_lt_or_eq.mp hj with hj' | hj'
        · exact hnop j hj'
        · rw [hj']
          exact hps'
      · rintro ⟨j, hj, hpj⟩
        rcases Nat.lt_succ_iff_lt_or_eq.mp hj with hj' | hj'
        · exact q2 ⟨j, hj', hpj⟩
        · rw [hj'] at hpj
          exact absurd hpj (by simp [hps'])
      · intro hguard j hj hpj
        rcases Nat.lt_succ_iff_lt_or_eq.mp hj with hj' | hj'
        · exact q3 hguard j hj' hpj
        · rw [hj'] at hpj
          exact absurd hpj (by simp [hps'])

theorem processOne_establish (tick ci : Nat) (c : NNComb) (keys : List NNKey)
    (htick : 1 ≤ tick) (hwf : wfComb c) :
    (_NN_Combo_ProcessOne tick ci c keys).1.combo_member = c.combo_member ∧
    (_NN_Combo_ProcessOne tick ci c keys).1.combo_member_nbr =
      c.combo_member_nbr ∧
    wfComb (_NN_Combo_ProcessOne tick ci c keys).1 ∧
    (_NN_Combo_ProcessOne tick ci c keys).2.1.length = keys.length ∧
    (∀ i, i ∉ memIdxs c →
      (_NN_Combo_ProcessOne tick ci c keys).2.1.getD i NN_Key_Init =
        keys.getD i NN_Key_Init) ∧
    (∀ i, keyLockEv (keys.getD i NN_Key_Init)
      ((_NN_Combo_ProcessOne tick ci c keys).2.1.getD i NN_Key_Init)) ∧
    (∀ i, ((_NN_Combo_ProcessOne tick ci c keys).2.1.getD i NN_Key_Init).lock_flag
        = true →
      (keys.getD i NN_Key_Init).lock_flag = true ∨
      (i ∈ memIdxs c ∧
        (_NN_Combo_ProcessOne tick ci c keys).1.combo_mem_first ≠ 0)) ∧
    comboPost tick (_NN_Combo_ProcessOne tick ci c keys).1
      (_NN_Combo_ProcessOne tick ci c keys).2.1 := by
  obtain ⟨hnbr4, hnow16⟩ := hwf
  have ha0 : (decide (0 < c.combo_mem_first) = true) → c.combo_mem_first ≠ 0 := by
    intro h
    have := of_decide_eq_true h
    omega
  simp only [_NN_Combo_ProcessOne]
  set st := (List.range c.combo_member_nbr).foldl
    (_NN_Combo_MemberScan tick c.combo_window c.combo_value_excepted keys
      c.combo_member)
    { first := c.combo_mem_first, now := c.combo_value_now,
      trigger := c.combo_trigger, active := 0 < c.combo_mem_first } with hstdef
  have hinv : scanInvP tick c.combo_window c.combo_value_excepted
      c.combo_mem_first keys c.combo_member c.combo_member_nbr st :=
    scanInv tick c.combo_window c.combo_value_excepted c.combo_member_nbr keys
      c.combo_member c.combo_mem_first c.combo_value_now c.combo_trigger
      (decide (0 < c.combo_mem_first)) htick hnow16 hnbr4 ha0
      c.combo_member_nbr (Nat.le_refl _)
  obtain ⟨iNow, iTrig, iAct⟩ := hinv
  have not_mem_slots : ∀ i, i ∉ memIdxs c →
      ∀ j, j < c.combo_member_nbr → c.combo_member.getD j none ≠ some i := by
    intro i hm j hj hcon
    exact hm ((mem_memIdxs c i).mpr ⟨j, hj, hcon⟩)
  have ps_of : ∀ j mi, c.combo_member.getD j none = some mi →
      (keys.getD mi NN_Key_Init).event = KeyEvent.evPressed →
      pressedSlot keys c.combo_member j = true :=
    fun j mi hs hp => (pressedSlot_true_iff keys c.combo_member j).mpr ⟨mi, hs, hp⟩
  set keys1 := if st.active = true then
      lockMembers c.combo_member c.combo_member_nbr keys
    else keys with hk1def
  have k1_len : keys1.length = keys.length := by
    rw [hk1def]
    split_ifs
    · rw [lockMembers_eq, memFold_length]
    · rfl
  have k1_cases : ∀ i,
      keys1.getD i NN_Key_Init = keys.getD i NN_Key_Init ∨
      keys1.getD i NN_Key_Init =
        { keys.getD i NN_Key_Init with lock_flag := true } := by
    intro i
    rw [hk1def]
    split_ifs
    · rw [lockMembers_eq]
      exact memFold_getD (fun k => { k with lock_flag := true }) c.combo_member
        (fun x => rfl) c.combo_member_nbr keys i
    · exact Or.inl rfl
  have k1_nm : ∀ i, i ∉ memIdxs c →
      keys1.getD i NN_Key_Init = keys.getD i NN_Key_Init := by
    intro i hm
    rw [hk1def]
    split_ifs
    · rw [lockMembers_eq]
      exact memFold_getD_not_mem _ c.combo_member c.combo_member_nbr keys i
        (not_mem_slots i hm)
    · rfl
  have k1_ev : ∀ i, (keys1.getD i NN_Key_Init).event =
      (keys.getD i NN_Key_Init).event := by
    intro i
    rcases k1_cases i with h | h <;> rw [h]
  have k1_lock_back : ∀ i, (keys1.getD i NN_Key_Init).lock_flag = true →
      (keys.getD i NN_Key_Init).lock_flag = true ∨ i ∈ memIdxs c := by
    intro i hl
    by_cases hm : i ∈ memIdxs c
    · exact Or.inr hm
    · rw [k1_nm i hm] at hl
      exact Or.inl hl
  have k1_lock_mem : st.active = true → ∀ i, i < keys.length → i ∈ memIdxs c →
      (keys1.getD i NN_Key_Init).lock_flag = true := by
    intro hact i hi hm
    obtain ⟨j, hj, hs⟩ := (mem_memIdxs c i).mp hm
    rw [hk1def, if_pos hact, lockMembers_eq,
      memFold_getD_mem (fun k => { k with lock_flag := true }) c.combo_member
        (fun x => rfl) c.combo_member_nbr keys i j hj hs hi]
  by_cases hT : st.trigger = true
  · rw [if_pos hT]
    have c2_cases : ∀ i,
        (clearMembers c.combo_member c.combo_member_nbr keys1).getD i NN_Key_Init
          = keys1.getD i NN_Key_Init ∨
        (clearMembers c.combo_member c.combo_member_nbr keys1).getD i NN_Key_Init
          = { keys1.getD i NN_Key_Init with event := KeyEvent.evInit, lock_flag := false } := by
      intro i
      rw [clearMembers_eq]
      exact memFold_getD (fun k => { k with event := KeyEvent.evInit, lock_flag := false })
        c.combo_member (fun x => rfl) c.combo_member_nbr keys1 i
    have c2_nm : ∀ i, i ∉ memIdxs c →
        (clearMembers c.combo_member c.combo_member_nbr keys1).getD i NN_Key_Init
          = keys1.getD i NN_Key_Init := by
      intro i hm
      rw [clearMembers_eq]
      exact memFold_getD_not_mem _ c.combo_member c.combo_member_nbr keys1 i
        (not_mem_slots i hm)
    have c2_len : (clearMembers c.combo_member c.combo_member_nbr keys1).length =
        keys.length := by
      rw [clearMembers_eq, memFold_length, k1_len]
    have c2_mem : ∀ i, i ∈ memIdxs c →
        ((clearMembers c.combo_member c.combo_member_nbr keys1).getD i
            NN_Key_Init).event = KeyEvent.evInit ∧
        ((clearMembers c.combo_member c.combo_member_nbr keys1).getD i
            NN_Key_Init).lock_flag = false := by
      intro i hm
      obtain ⟨j, hj, hs⟩ := (mem_memIdxs c i).mp hm
      by_cases hi : i < keys.length
      · rw [clearMembers_eq,
          memFold_getD_mem (fun k => { k with event := KeyEvent.evInit, lock_flag := false })
            c.combo_member (fun x => rfl)
            c.combo_member_nbr keys1 i j hj hs (by rw [k1_len]; exact hi)]
        exact ⟨rfl, rfl⟩
      · rw [List.getD_eq_default _ _ (by rw [c2_len]; omega)]
        exact ⟨rfl, rfl⟩
    have c2_lockev : ∀ i, keyLockEv (keys.getD i NN_Key_Init)
        ((clearMembers c.combo_member c.combo_member_nbr keys1).getD i
          NN_Key_Init) := by
      intro i
      rcases c2_cases i with h | h <;> rcases k1_cases i with h2 | h2 <;>
        rw [h, h2]
      · exact Or.inl rfl
      · exact Or.inr (Or.inl rfl)
      · exact Or.inr (Or.inr (Or.inr rfl))
      · exact Or.inr (Or.inr (Or.inr rfl))
    have c2_lock_back : ∀ i,
        ((clearMembers c.combo_member c.combo_member_nbr keys1).getD i
          NN_Key_Init).lock_flag = true →
        (keys.getD i NN_Key_Init).lock_flag = true := by
      intro i hl
      by_cases hm : i ∈ memIdxs c
      · rw [(c2_mem i hm).2] at hl
        exact absurd hl (by decide)
      · rw [c2_nm i hm, k1_nm i hm] at hl
        exact hl
    by_cases hexp : st.first ≠ 0 ∧ c.combo_window < sub32 tick st.first
    · rw [if_pos (by exact hexp)]
      have u_cases : ∀ i,
          (unlockMembers c.combo_member c.combo_member_nbr
              (clearMembers c.combo_member c.combo_member_nbr keys1)).getD i
              NN_Key_Init =
            (clearMembers c.combo_member c.combo_member_nbr keys1).getD i
              NN_Key_Init ∨
          (unlockMembers c.combo_member c.combo_member_nbr
              (clearMembers c.combo_member c.combo_member_nbr keys1)).getD i
              NN_Key_Init =
            { (clearMembers c.combo_member c.combo_member_nbr keys1).getD i
                NN_Key_Init with lock_flag := false } := by
        intro i
        rw [unlockMembers_eq]
        exact memFold_getD (fun k => { k with lock_flag := false })
          c.combo_member (fun x => rfl) c.combo_member_nbr _ i
      have u_nm : ∀ i, i ∉ memIdxs c →
          (unlockMembers c.combo_member c.combo_member_nbr
              (clearMembers c.combo_member c.combo_member_nbr keys1)).getD i
              NN_Key_Init =
            (clearMembers c.combo_member c.combo_member_nbr keys1).getD i
              NN_Key_Init := by
        intro i hm
        rw [unlockMembers_eq]
        exact memFold_getD_not_mem _ c.combo_member c.combo_member_nbr _ i
          (not_mem_slots i hm)
      have u_mem : ∀ i, i ∈ memIdxs c →
          ((unlockMembers c.combo_member c.combo_member_nbr
              (clearMembers c.combo_member c.combo_member_nbr keys1)).getD i
              NN_Key_Init).event = KeyEvent.evInit ∧
          ((unlockMembers c.combo_member c.combo_member_nbr
              (clearMembers c.combo_member c.combo_member_nbr keys1)).getD i
              NN_Key_Init).lock_flag = false := by
        intro i hm
        rcases u_cases i with h | h <;> rw [h]
        · exact c2_mem i hm
        · exact ⟨(c2_mem i hm).1, rfl⟩
      refine ⟨rfl, rfl, ⟨hnbr4, show (0:Nat) < 16 by decide⟩, ?_, ?_, ?_, ?_, ?_⟩
      · rw [unlockMembers_eq, memFold_length, c2_len]
      · intro i hm
        rw [u_nm i hm, c2_nm i hm, k1_nm i hm]
      · intro i
        rcases u_cases i with h | h <;> rw [h]
        · exact c2_lockev i
        · rcases c2_cases i with h2 | h2 <;> rcases k1_cases i with h3 | h3 <;>
            rw [h2, h3]
          · exact Or.inr (Or.inr (Or.inl rfl))
          · exact Or.inr (Or.inr (Or.inl rfl))
          · exact Or.inr (Or.inr (Or.inr rfl))
          · exact Or.inr (Or.inr (Or.inr rfl))
      · intro i hl
        by_cases hm : i ∈ memIdxs c
        · rw [(u_mem i hm).2] at hl
          exact absurd hl (by decide)
        · rw [u_nm i hm, c2_nm i hm, k1_nm i hm] at hl
          exact Or.inl hl
      · refine ⟨rfl, ?_, ?_⟩
        · intro _ j hj mi hs
          exact Or.inl (by
            rw [(u_mem mi ((mem_memIdxs c mi).mpr ⟨j, hj, hs⟩)).1]
            decide)
        · intro hcon
          exact absurd rfl hcon
    · rw [if_neg (by exact hexp)]
      refine ⟨rfl, rfl, ⟨hnbr4, iNow⟩, c2_len, ?_, c2_lockev, ?_, ?_⟩
      · intro i hm
        exact (c2_nm i hm).trans (k1_nm i hm)
      · intro i hl
        exact Or.inl (c2_lock_back i hl)
      · refine ⟨rfl, ?_, ?_⟩
        · intro _ j hj mi hs
          exact Or.inl (by
            rw [(c2_mem mi ((mem_memIdxs c mi).mpr ⟨j, hj, hs⟩)).1]
            decide)
        · intro hfz
          push_neg at hexp
          refine ⟨Nat.not_lt.mpr (hexp hfz), ?_, ?_⟩
          · intro j hj mi hs hp
            rw [(c2_mem mi ((mem_memIdxs c mi).mpr ⟨j, hj, hs⟩)).1] at hp
            exact absurd hp (by decide)
          · rintro ⟨j, hj, mi, hs, hp⟩
            rw [(c2_mem mi ((mem_memIdxs c mi).mpr ⟨j, hj, hs⟩)).1] at hp
            exact absurd hp (by decide)
  · have hTf : st.trigger = false := Bool.eq_false_iff.mpr hT
    rw [if_neg hT]
    obtain ⟨q1, q2, q3⟩ := iTrig hTf
    by_cases hexp : st.first ≠ 0 ∧ c.combo_window < sub32 tick st.first
    · rw [if_pos (by exact hexp)]
      have u_cases : ∀ i,
          (unlockMembers c.combo_member c.combo_member_nbr keys1).getD i
              NN_Key_Init = keys1.getD i NN_Key_Init ∨
          (unlockMembers c.combo_member c.combo_member_nbr keys1).getD i
              NN_Key_Init =
            { keys1.getD i NN_Key_Init with lock_flag := false } := by
        intro i
        rw [unlockMembers_eq]
        exact memFold_getD (fun k => { k with lock_flag := false })
          c.combo_member (fun x => rfl) c.combo_member_nbr _ i
      have u_nm : ∀ i, i ∉ memIdxs c →
          (unlockMembers c.combo_member c.combo_member_nbr keys1).getD i
              NN_Key_Init = keys1.getD i NN_Key_Init := by
        intro i hm
        rw [unlockMembers_eq]
        exact memFold_getD_not_mem _ c.combo_member c.combo_member_nbr _ i
          (not_mem_slots i hm)
      have u_mem_lock : ∀ i, i ∈ memIdxs c →
          ((unlockMembers c.combo_member c.combo_member_nbr keys1).getD i
            NN_Key_Init).lock_flag = false := by
        intro i hm
        obtain ⟨j, hj, hs⟩ := (mem_memIdxs c i).mp hm
        by_cases hi : i < keys.length
        · rw [unlockMembers_eq,
            memFold_getD_mem (fun k => { k with lock_flag := false })
              c.combo_member (fun x => rfl) c.combo_member_nbr keys1 i j hj hs
              (by rw [k1_len]; exact hi)]
        · rw [List.getD_eq_default _ _
            (by rw [unlockMembers_eq, memFold_length, k1_len]; omega)]
          rfl
      refine ⟨rfl, rfl, ⟨hnbr4, show (0:Nat) < 16 by decide⟩, ?_, ?_, ?_, ?_, ?_⟩
      · rw [unlockMembers_eq, memFold_length, k1_len]
      · intro i hm
        rw [u_nm i hm, k1_nm i hm]
      · intro i
        rcases u_cases i with h | h <;> rcases k1_cases i with h2 | h2 <;>
          rw [h, h2]
        · exact Or.inl rfl
        · exact Or.inr (Or.inl rfl)
        · exact Or.inr (Or.inr (Or.inl rfl))
        · exact Or.inr (Or.inr (Or.inl rfl))
      · intro i hl
        by_cases hm : i ∈ memIdxs c
        · rw [u_mem_lock i hm] at hl
          exact absurd hl (by decide)
        · rw [u_nm i hm, k1_nm i hm] at hl
          exact Or.inl hl
      · refine ⟨hTf, ?_, ?_⟩
        · intro _ j hj mi hs
          exact Or.inr (u_mem_lock mi ((mem_memIdxs c mi).mpr ⟨j, hj, hs⟩))
        · intro hcon
          exact absurd rfl hcon
    · rw [if_neg (by exact hexp)]
      push_neg at hexp
      refine ⟨rfl, rfl, ⟨hnbr4, iNow⟩, k1_len, k1_nm, ?_, ?_, ?_⟩
      · intro i
        rcases k1_cases i with h | h <;> rw [h]
        · exact Or.inl rfl
        · exact Or.inr (Or.inl rfl)
      · intro i hl
        by_cases hact : st.active = true
        · rcases k1_lock_back i hl with h | h
          · exact Or.inl h
          · rcases iAct hact with h2 | h2
            · exact absurd h2 (by simp [hTf])
            · exact Or.inr ⟨h, h2⟩
        · have : keys1 = keys := by
            rw [hk1def, if_neg hact]
          rw [this] at hl
          exact Or.inl hl
      · refine ⟨hTf, ?_, ?_⟩
        · intro hfz j hj mi hs
          refine Or.inl ?_
          rw [k1_ev mi]
          by_cases hp : (keys.getD mi NN_Key_Init).event = KeyEvent.evPressed
          · exact absurd (ps_of j mi hs hp) (by simp [(q1 hfz).2 j hj])
          · exact hp
        · intro hfz
          have hng : ¬ c.combo_window < sub32 tick st.first :=
            Nat.not_lt.mpr (hexp hfz)
          refine ⟨hng, ?_, ?_⟩
          · intro j hj mi hs hp
            rw [k1_ev mi] at hp
            exact q3 hng j hj (ps_of j mi hs hp)
          · rintro ⟨j, hj, mi, hs, hp⟩
            rw [k1_ev mi] at hp
            exact q2 ⟨j, hj, ps_of j mi hs hp⟩

theorem comboPost_congr (tick : Nat) (c : NNComb) (ks ks' : List NNKey)
    (h : ∀ i, i ∈ memIdxs c → ks'.getD i NN_Key_Init = ks.getD i NN_Key_Init)
    (hp : comboPost tick c ks) : comboPost tick c ks' := by
  obtain ⟨h1, h2, h3⟩ := hp
  refine ⟨h1, ?_, ?_⟩
  · intro hf j hj mi hs
    rw [h mi ((mem_memIdxs c mi).mpr ⟨j, hj, hs⟩)]
    exact h2 hf j hj mi hs
  · intro hf
    obtain ⟨ha, hb, hc⟩ := h3 hf
    refine ⟨ha, ?_, ?_⟩
    · intro j hj mi hs hp'
      rw [h mi ((mem_memIdxs c mi).mpr ⟨j, hj, hs⟩)] at hp'
      exact hb j hj mi hs hp'
    · rintro ⟨j, hj, mi, hs, hp'⟩
      rw [h mi ((mem_memIdxs c mi).mpr ⟨j, hj, hs⟩)] at hp'
      exact hc ⟨j, hj, mi, hs, hp'⟩

theorem memIdxs_eq_of_fields (c1 c2 : NNComb)
    (hm : c1.combo_member = c2.combo_member)
    (hn : c1.combo_member_nbr = c2.combo_member_nbr) :
    memIdxs c1 = memIdxs c2 := by
  unfold memIdxs
  rw [hm, hn]

theorem processAll_establish (tick : Nat) (htick : 1 ≤ tick) :
    ∀ (cs : List NNComb) (ci : Nat) (ks : List NNKey),
      (∀ c ∈ cs, wfComb c) → List.Pairwise comboDisj cs →
      (_NN_Combo_Process tick ci cs ks).1.length = cs.length ∧
      (_NN_Combo_Process tick ci cs ks).2.1.length = ks.length ∧
      (∀ i, (∀ c' ∈ cs, i ∉ memIdxs c') →
        (_NN_Combo_Process tick ci cs ks).2.1.getD i NN_Key_Init =
          ks.getD i NN_Key_Init) ∧
      (∀ i, keyLockEv (ks.getD i NN_Key_Init)
        ((_NN_Combo_Process tick ci cs ks).2.1.getD i NN_Key_Init)) ∧
      (∀ i, ((_NN_Combo_Process tick ci cs ks).2.1.getD i NN_Key_Init).lock_flag
          = true →
        (ks.getD i NN_Key_Init).lock_flag = true ∨
        ∃ j, j < cs.length ∧
          i ∈ memIdxs ((_NN_Combo_Process tick ci cs ks).1.getD j defComb) ∧
          ((_NN_Combo_Process tick ci cs ks).1.getD j defComb).combo_mem_first
            ≠ 0) ∧
      (∀ c' ∈ (_NN_Combo_Process tick ci cs ks).1,
        comboPost tick c' (_NN_Combo_Process tick ci cs ks).2.1) := by
  intro cs
  induction cs with
  | nil =>
    intro ci ks _ _
    refine ⟨rfl, rfl, fun i _ => rfl, fun i => Or.inl rfl, ?_, ?_⟩
    · intro i hl
      exact Or.inl hl
    · intro c' hc'
      simp [_NN_Combo_Process] at hc'
  | cons c cs ih =>
    intro ci ks hwf hpw
    obtain ⟨e_mem, e_nbr, e_wf, e_len, e_nm, e_lockev, e_back, e_post⟩ :=
      processOne_establish tick ci c ks htick (hwf c (List.mem_cons_self c cs))
    obtain ⟨hdis, hpw'⟩ := List.pairwise_cons.mp hpw
    obtain ⟨i_lenC, i_lenK, i_nt, i_lockev, i_back, i_post⟩ :=
      ih (ci + 1) (_NN_Combo_ProcessOne tick ci c ks).2.1
        (fun c' hc' => hwf c' (List.mem_cons_of_mem _ hc')) hpw'
    have hmidx : memIdxs (_NN_Combo_ProcessOne tick ci c ks).1 = memIdxs c :=
      memIdxs_eq_of_fields _ _ e_mem e_nbr
    have head_nt : ∀ i, i ∈ memIdxs c →
        (_NN_Combo_Process tick (ci + 1) cs
            (_NN_Combo_ProcessOne tick ci c ks).2.1).2.1.getD i NN_Key_Init =
          (_NN_Combo_ProcessOne tick ci c ks).2.1.getD i NN_Key_Init := by
      intro i hi
      exact i_nt i (fun c' hc' => hdis c' hc' i hi)
    simp only [_NN_Combo_Process]
    refine ⟨by simp [i_lenC], by rw [i_lenK, e_len], ?_, ?_, ?_, ?_⟩
    · intro i hni
      have h1 : i ∉ memIdxs c := hni c (List.mem_cons_self c cs)
      rw [i_nt i (fun c' hc' => hni c' (List.mem_cons_of_mem _ hc')), e_nm i h1]
    · intro i
      by_cases hm : i ∈ memIdxs c
      · rw [head_nt i hm]
        exact e_lockev i
      · have := i_lockev i
        rw [e_nm i hm] at this
        exact this
    · intro i hl
      rcases i_back i hl with h | h
      · rcases e_back i h with h2 | h2
        · exact Or.inl h2
        · refine Or.inr ⟨0, by simp only [List.length_cons]; omega, ?_, ?_⟩
          · rw [List.getD_cons_zero, hmidx]
            exact h2.1
          · rw [List.getD_cons_zero]
            exact h2.2
      · obtain ⟨j, hj, hmem, hfz⟩ := h
        refine Or.inr ⟨j + 1, by simp only [List.length_cons]; omega, ?_, ?_⟩
        · rw [List.getD_cons_succ]
          exact hmem
        · rw [List.getD_cons_succ]
          exact hfz
    · intro c' hc'
      rcases List.mem_cons.mp hc' with hh | hh
      · subst hh
        exact comboPost_congr tick _ _ _
          (fun i hi => head_nt i (by rw [hmidx] at hi; exact hi)) e_post
      · exact i_post c' hh

theorem keyLockEv_withEvLock (a b : NNKey) (h : keyLockEv a b) :
    ∃ e l, b = withEvLock a e l := by
  rcases h with h | h | h | h
  · exact ⟨a.event, a.lock_flag, by rw [h]; rfl⟩
  · exact ⟨a.event, true, by rw [h]; rfl⟩
  · exact ⟨a.event, false, by rw [h]; rfl⟩
  · exact ⟨KeyEvent.evInit, false, by rw [h]; rfl⟩

theorem comboStable_of_post (tick : Nat) (c : NNComb) (ksA ksB : List NNKey)
    (hp : comboPost tick c ksA)
    (hfwd : ∀ i, (ksB.getD i NN_Key_Init).event = KeyEvent.evPressed →
      (ksA.getD i NN_Key_Init).event = KeyEvent.evPressed)
    (hcons : ∀ i, (ksA.getD i NN_Key_Init).lock_flag = false →
      (ksB.getD i NN_Key_Init).event ≠ KeyEvent.evPressed) :
    comboStable tick c ksB := by
  obtain ⟨h1, h2, h3⟩ := hp
  refine ⟨h1, ?_, ?_⟩
  · intro hf j hj mi hs hpB
    rcases h2 hf j hj mi hs with h | h
    · exact h (hfwd mi hpB)
    · exact hcons mi h hpB
  · intro hf
    obtain ⟨ha, hb, hc⟩ := h3 hf
    refine ⟨ha, ?_, ?_⟩
    · intro j hj mi hs hpB
      exact hb j hj mi hs (hfwd mi hpB)
    · rintro ⟨j, hj, mi, hs, hpB⟩
      exact hc ⟨j, hj, mi, hs, hfwd mi hpB⟩

/-- C9 (amended): on a well-formed system (registration-guaranteed key
parameters and combo fields, no key shared between two combos) and at any
nonzero tick, repeating `NN_Key_Handler` with the same tick and the same
raw readings is quiescent: no key changes state, timestamp or click
counter, the combo list is unchanged, and the second call fires no
non-continuous callback (its log holds only continuous-long-press
entries).  The single deviation from plain idempotence is the one exposed
by `C9_counterexample`: a key held in the continuous-long-press state
re-raises its continuous event, so a pending event consumed in between
can reappear as `evLongPressedAlws`. -/
theorem C9_theorem (raws : Nat → Bool) (sys : Sys) (tick : Nat)
    (hwf : wfSys sys) (htick : 1 ≤ tick) :
    (∀ i, keyRel (getKey (NN_Key_Handler raws sys tick).1 i)
      (getKey (NN_Key_Handler raws (NN_Key_Handler raws sys tick).1 tick).1 i)) ∧
    (NN_Key_Handler raws (NN_Key_Handler raws sys tick).1 tick).1.combos =
      (NN_Key_Handler raws sys tick).1.combos ∧
    (∀ e ∈ (NN_Key_Handler raws (NN_Key_Handler raws sys tick).1 tick).2,
      isAlwsEntry e = true) := by
  obtain ⟨hwfK, hwfC, hpw⟩ := hwf
  set A0 := sys.keys.map (fun k =>
    if k.is_member = true then { k with lock_flag := false } else k) with hA0
  set A1 := smAll tick raws 0 A0 with hA1
  set rc1 := _NN_Combo_Process tick 0 sys.combos A1 with hrc1
  set rd1 := dispatchAll tick 0 sys.lastTick rc1.2.1 with hrd1
  have hs1 : NN_Key_Handler raws sys tick =
      ({ keys := rd1.1, combos := rc1.1, lastTick := rd1.2.1 },
        rc1.2.2 ++ rd1.2.2) := rfl
  set B0 := rd1.1.map (fun k =>
    if k.is_member = true then { k with lock_flag := false } else k) with hB0
  set B1 := smAll tick raws 0 B0 with hB1
  set rc2 := _NN_Combo_Process tick 0 rc1.1 B1 with hrc2
  set rd2 := dispatchAll tick 0 rd1.2.1 rc2.2.1 with hrd2
  have hs2 : NN_Key_Handler raws (NN_Key_Handler raws sys tick).1 tick =
      ({ keys := rd2.1, combos := rc2.1, lastTick := rd2.2.1 },
        rc2.2.2 ++ rd2.2.2) := by
    rw [hs1]
    rfl
  have hlenA0 : A0.length = sys.keys.length := by
    rw [hA0, List.length_map]
  have hlenA1 : A1.length = sys.keys.length := by
    rw [hA1, smAll_length, hlenA0]
  obtain ⟨qLenC, qLenK, -, qLE, qBack, qPost⟩ :=
    processAll_establish tick htick sys.combos 0 A1 hwfC hpw
  rw [← hrc1] at qLenC qLenK qLE qBack qPost
  obtain ⟨dLen, dCases, dLocked, dUnlocked⟩ :=
    dispatchAll_post tick rc1.2.1 0 sys.lastTick
  rw [← hrd1] at dLen dCases dLocked dUnlocked
  have hlen_a2 : rc1.2.1.length = sys.keys.length := by rw [qLenK, hlenA1]
  have hlen_a3 : rd1.1.length = sys.keys.length := by rw [dLen, hlen_a2]
  have hlenB0 : B0.length = sys.keys.length := by
    rw [hB0, List.length_map, hlen_a3]
  have hlenB1 : B1.length = sys.keys.length := by
    rw [hB1, smAll_length, hlenB0]
  have hA0get : ∀ i, A0.getD i NN_Key_Init =
      (if (sys.keys.getD i NN_Key_Init).is_member = true then
        { sys.keys.getD i NN_Key_Init with lock_flag := false }
      else sys.keys.getD i NN_Key_Init) := by
    intro i
    rw [hA0]
    exact getD_map_fixed _ _ rfl sys.keys i
  have hB0get : ∀ i, B0.getD i NN_Key_Init =
      (if (rd1.1.getD i NN_Key_Init).is_member = true then
        { rd1.1.getD i NN_Key_Init with lock_flag := false }
      else rd1.1.getD i NN_Key_Init) := by
    intro i
    rw [hB0]
    exact getD_map_fixed _ _ rfl rd1.1 i
  have hwfA0 : ∀ i, i < sys.keys.length → wfKeyParas (A0.getD i NN_Key_Init) := by
    intro i hi
    have hk := hwfK (sys.keys.getD i NN_Key_Init)
      (getD_mem_of_lt sys.keys NN_Key_Init i hi)
    rw [hA0get i]
    split_ifs
    · exact hk
    · exact hk
  have hA1get : ∀ i, i < sys.keys.length → A1.getD i NN_Key_Init =
      _NN_Key_StateMachine (A0.getD i NN_Key_Init) tick (raws i) := by
    intro i hi
    rw [hA1, smAll_getD tick raws A0 0 i (by rw [hlenA0]; exact hi), Nat.zero_add]
  have hstab : ∀ i, i < sys.keys.length →
      smStable (A1.getD i NN_Key_Init) tick (raws i) := by
    intro i hi
    rw [hA1get i hi]
    exact sm_stable_of _ tick (raws i) (hwfA0 i hi)
  have ha2rep : ∀ i, ∃ e l, rc1.2.1.getD i NN_Key_Init =
      withEvLock (A1.getD i NN_Key_Init) e l :=
    fun i => keyLockEv_withEvLock _ _ (qLE i)
  have ha3rep : ∀ i, ∃ e l, rd1.1.getD i NN_Key_Init =
      withEvLock (A1.getD i NN_Key_Init) e l := by
    intro i
    obtain ⟨e, l, h2⟩ := ha2rep i
    rcases dCases i with h | h
    · rw [h, h2]
      exact ⟨e, l, rfl⟩
    · rw [h, h2]
      exact ⟨KeyEvent.evInit, l, rfl⟩
  have ha3proj : ∀ i,
      (rd1.1.getD i NN_Key_Init).state = (A1.getD i NN_Key_Init).state ∧
      (rd1.1.getD i NN_Key_Init).key_last_time =
        (A1.getD i NN_Key_Init).key_last_time ∧
      (rd1.1.getD i NN_Key_Init).multi_count =
        (A1.getD i NN_Key_Init).multi_count := by
    intro i
    obtain ⟨e, l, h⟩ := ha3rep i
    rw [h]
    exact ⟨rfl, rfl, rfl⟩
  have hmem_a3 : ∀ i, i < sys.keys.length →
      (rd1.1.getD i NN_Key_Init).is_member =
        (sys.keys.getD i NN_Key_Init).is_member := by
    intro i hi
    obtain ⟨e, l, h⟩ := ha3rep i
    rw [h, show (withEvLock (A1.getD i NN_Key_Init) e l).is_member =
      (A1.getD i NN_Key_Init).is_member from rfl, hA1get i hi, sm_is_member,
      hA0get i]
    split_ifs <;> rfl
  have hb0rep : ∀ i, ∃ e l, B0.getD i NN_Key_Init =
      withEvLock (A1.getD i NN_Key_Init) e l := by
    intro i
    obtain ⟨e, l, h3⟩ := ha3rep i
    rw [hB0get i, h3]
    split_ifs
    · exact ⟨e, false, rfl⟩
    · exact ⟨e, l, rfl⟩
  have hb0ev : ∀ i, (B0.getD i NN_Key_Init).event =
      (rd1.1.getD i NN_Key_Init).event := by
    intro i
    rw [hB0get i]
    split_ifs <;> rfl
  have hb0proj : ∀ i,
      (B0.getD i NN_Key_Init).state = (rd1.1.getD i NN_Key_Init).state ∧
      (B0.getD i NN_Key_Init).key_last_time =
        (rd1.1.getD i NN_Key_Init).key_last_time ∧
      (B0.getD i NN_Key_Init).multi_count =
        (rd1.1.getD i NN_Key_Init).multi_count := by
    intro i
    rw [hB0get i]
    split_ifs <;> exact ⟨rfl, rfl, rfl⟩
  have hB1get : ∀ i, i < sys.keys.length → B1.getD i NN_Key_Init =
      _NN_Key_StateMachine (B0.getD i NN_Key_Init) tick (raws i) := by
    intro i hi
    rw [hB1, smAll_getD tick raws B0 0 i (by rw [hlenB0]; exact hi), Nat.zero_add]
  have hb1 : ∀ i, i < sys.keys.length →
      B1.getD i NN_Key_Init = B0.getD i NN_Key_Init ∨
      (B1.getD i NN_Key_Init =
          withEvLock (A1.getD i NN_Key_Init) KeyEvent.evLongPressedAlws
            (B0.getD i NN_Key_Init).lock_flag ∧
        (A1.getD i NN_Key_Init).state = KeyState.longPressedAlws) := by
    intro i hi
    obtain ⟨e, l, h0⟩ := hb0rep i
    rw [hB1get i hi, h0, hstab i hi e l]
    by_cases hc : (A1.getD i NN_Key_Init).state = KeyState.longPressedAlws ∧
        raws i = true
    · rw [if_pos hc]
      exact Or.inr ⟨rfl, hc.1⟩
    · rw [if_neg hc]
      exact Or.inl rfl
  have hb1ev : ∀ i, i < sys.keys.length →
      (B1.getD i NN_Key_Init).event = (rd1.1.getD i NN_Key_Init).event ∨
      (B1.getD i NN_Key_Init).event = KeyEvent.evLongPressedAlws := by
    intro i hi
    rcases hb1 i hi with h | ⟨h, -⟩
    · rw [h, hb0ev i]
      exact Or.inl rfl
    · rw [h, withEvLock_event]
      exact Or.inr rfl
  have hfwd : ∀ i, (B1.getD i NN_Key_Init).event = KeyEvent.evPressed →
      (rc1.2.1.getD i NN_Key_Init).event = KeyEvent.evPressed := by
    intro i hp
    by_cases hi : i < sys.keys.length
    · rcases hb1ev i hi with h | h
      · rw [h] at hp
        rcases dCases i with h2 | h2
        · rw [h2] at hp
          exact hp
        · rw [h2] at hp
          exact absurd hp (by simp)
      · rw [h] at hp
        exact absurd hp (by decide)
    · rw [List.getD_eq_default _ _ (by rw [hlenB1]; omega)] at hp
      exact absurd hp (by decide)
  have hcons : ∀ i, (rc1.2.1.getD i NN_Key_Init).lock_flag = false →
      (B1.getD i NN_Key_Init).event ≠ KeyEvent.evPressed := by
    intro i hl hp
    by_cases hi : i < sys.keys.length
    · rcases hb1ev i hi with h | h
      · rw [h] at hp
        rcases dUnlocked i hl with h2 | h2 <;> rw [h2] at hp <;>
          exact absurd hp (by decide)
      · rw [h] at hp
        exact absurd hp (by decide)
    · rw [List.getD_eq_default _ _ (by rw [hlenB1]; omega)] at hp
      exact absurd hp (by decide)
  have hstable2 : ∀ c' ∈ rc1.1, comboStable tick c' B1 := by
    intro c' hc'
    exact comboStable_of_post tick c' rc1.2.1 B1 (qPost c' hc') hfwd hcons
  obtain ⟨sC, sLog, sLO, sLen, sLock⟩ :=
    processAll_stable tick rc1.1 0 B1 hstable2
  rw [← hrc2] at sC sLog sLO sLen sLock
  have hlen_b2 : rc2.2.1.length = sys.keys.length := by rw [sLen, hlenB1]
  have hA1lock : ∀ i, i < sys.keys.length →
      (A1.getD i NN_Key_Init).lock_flag = (A0.getD i NN_Key_Init).lock_flag := by
    intro i hi
    rw [hA1get i hi, sm_lock]
  have hA0lock : ∀ i, (sys.keys.getD i NN_Key_Init).is_member = true →
      (A0.getD i NN_Key_Init).lock_flag = false := by
    intro i hm
    rw [hA0get i, if_pos hm]
  have ha2ev : ∀ i,
      (rc1.2.1.getD i NN_Key_Init).event = (A1.getD i NN_Key_Init).event ∨
      (rc1.2.1.getD i NN_Key_Init).event = KeyEvent.evInit := by
    intro i
    rcases qLE i with h | h | h | h <;> rw [h]
    · exact Or.inl rfl
    · exact Or.inl rfl
    · exact Or.inl rfl
    · exact Or.inr rfl
  have ha3ev : ∀ i,
      (rd1.1.getD i NN_Key_Init).event = (rc1.2.1.getD i NN_Key_Init).event ∨
      (rd1.1.getD i NN_Key_Init).event = KeyEvent.evInit := by
    intro i
    rcases dCases i with h | h <;> rw [h]
    · exact Or.inl rfl
    · exact Or.inr rfl
  have hquiet : ∀ k ∈ rc2.2.1, k.lock_flag = true ∨ k.event = KeyEvent.evInit ∨
      k.event = KeyEvent.evLongPressedAlws := by
    apply forall_mem_of_getD rc2.2.1 NN_Key_Init
    intro i hi0
    have hi : i < sys.keys.length := by rw [← hlen_b2]; exact hi0
    by_cases hL : (rc1.2.1.getD i NN_Key_Init).lock_flag = true
    · left
      rcases qBack i hL with hA1l | ⟨j, hj, hjm, hjf⟩
      · have hmem : (sys.keys.getD i NN_Key_Init).is_member = false := by
          by_cases hm : (sys.keys.getD i NN_Key_Init).is_member = true
          · rw [hA1lock i hi, hA0lock i hm] at hA1l
            exact absurd hA1l (by decide)
          · exact Bool.eq_false_iff.mpr hm
        have h3 : rd1.1.getD i NN_Key_Init = rc1.2.1.getD i NN_Key_Init :=
          dLocked i hL
        have hb0 : B0.getD i NN_Key_Init = rd1.1.getD i NN_Key_Init := by
          rw [hB0get i,
            if_neg (by rw [hmem_a3 i hi, hmem]; exact (by decide : ¬(false = true)))]
        have hb1l : (B1.getD i NN_Key_Init).lock_flag = true := by
          rw [hB1get i hi, sm_lock, hb0, h3]
          exact hL
        exact lockOnly_lock_mono _ _ (sLO i) hb1l
      · have hcmem : rc1.1.getD j defComb ∈ rc1.1 :=
          getD_mem_of_lt rc1.1 defComb j (by rw [qLenC]; exact hj)
        exact sLock (rc1.1.getD j defComb) hcmem hjf i
          (by rw [hlenB1]; exact hi) hjm
    · right
      have hl2 : (rc1.2.1.getD i NN_Key_Init).lock_flag = false :=
        Bool.eq_false_iff.mpr hL
      have hev3 := dUnlocked i hl2
      have hb2ev : (rc2.2.1.getD i NN_Key_Init).event =
          (B1.getD i NN_Key_Init).event := (lockOnly_fields _ _ (sLO i)).1
      rcases hb1ev i hi with h | h
      · rw [hb2ev, h]
        exact hev3
      · rw [hb2ev, h]
        exact Or.inr rfl
  obtain ⟨dsEq, dsLog⟩ := dispatchAll_stable tick rc2.2.1 0 rd1.2.1 hquiet
  rw [← hrd2] at dsEq dsLog
  refine ⟨?_, ?_, ?_⟩
  · intro i
    rw [hs2, hs1]
    show keyRel (rd1.1.getD i NN_Key_Init) (rd2.1.getD i NN_Key_Init)
    rw [dsEq]
    by_cases hi : i < sys.keys.length
    · have hb2f := lockOnly_fields _ _ (sLO i)
      rcases hb1 i hi with hB | ⟨hB, hstA⟩
      · refine ⟨?_, ?_, ?_, Or.inl ?_⟩
        · rw [hb2f.2.1, hB, (hb0proj i).1]
        · rw [hb2f.2.2.1, hB, (hb0proj i).2.1]
        · rw [hb2f.2.2.2.1, hB, (hb0proj i).2.2]
        · rw [hb2f.1, hB, hb0ev i]
      · have ha1ev : (A1.getD i NN_Key_Init).event =
            KeyEvent.evLongPressedAlws := by
          have hst' := hstA
          rw [hA1get i hi] at hst' ⊢
          exact sm_alws_event _ tick (raws i) hst'
        have hb2ev : (rc2.2.1.getD i NN_Key_Init).event =
            KeyEvent.evLongPressedAlws := by
          rw [hb2f.1, hB, withEvLock_event]
        refine ⟨?_, ?_, ?_, ?_⟩
        · rw [hb2f.2.1, hB, withEvLock_state]
          exact ((ha3proj i).1).symm
        · rw [hb2f.2.2.1, hB,
            show (withEvLock (A1.getD i NN_Key_Init) KeyEvent.evLongPressedAlws
              (B0.getD i NN_Key_Init).lock_flag).key_last_time =
              (A1.getD i NN_Key_Init).key_last_time from rfl]
          exact ((ha3proj i).2.1).symm
        · rw [hb2f.2.2.2.1, hB,
            show (withEvLock (A1.getD i NN_Key_Init) KeyEvent.evLongPressedAlws
              (B0.getD i NN_Key_Init).lock_flag).multi_count =
              (A1.getD i NN_Key_Init).multi_count from rfl]
          exact ((ha3proj i).2.2).symm
        · rcases ha3ev i with h3 | h3
          · rcases ha2ev i with h2 | h2
            · left
              rw [hb2ev, h3, h2, ha1ev]
            · right
              exact ⟨by rw [h3, h2], hb2ev, by rw [(ha3proj i).1]; exact hstA⟩
          · right
            exact ⟨h3, hb2ev, by rw [(ha3proj i).1]; exact hstA⟩
    · rw [List.getD_eq_default _ _ (by rw [hlen_a3]; omega),
        List.getD_eq_default _ _ (by rw [hlen_b2]; omega)]
      exact ⟨rfl, rfl, rfl, Or.inl rfl⟩
  · rw [hs2, hs1]
    exact sC
  · rw [hs2]
    intro e he
    rw [sLog, List.nil_append] at he
    exact dsLog e he

theorem C9_witness :
    wfSys s9 ∧ 1 ≤ 450 ∧
    ((∀ i, keyRel (getKey (NN_Key_Handler raws9 s9 450).1 i)
      (getKey (NN_Key_Handler raws9 (NN_Key_Handler raws9 s9 450).1 450).1 i)) ∧
    (NN_Key_Handler raws9 (NN_Key_Handler raws9 s9 450).1 450).1.combos =
      (NN_Key_Handler raws9 s9 450).1.combos ∧
    (∀ e ∈ (NN_Key_Handler raws9 (NN_Key_Handler raws9 s9 450).1 450).2,
      isAlwsEntry e = true)) := by
  have hwf : wfSys s9 := by
    refine ⟨?_, ?_, ?_⟩
    · intro k hk
      simp only [s9] at hk
      rcases List.mem_cons.mp hk with rfl | hk2
      · exact ⟨by decide, by decide⟩
      · rcases List.mem_cons.mp hk2 with rfl | hk3
        · exact ⟨by decide, by decide⟩
        · exact absurd hk3 (List.not_mem_nil k)
    · intro c hc
      simp only [s9] at hc
      rcases List.mem_cons.mp hc with rfl | hc2
      · exact ⟨by decide, by decide⟩
      · exact absurd hc2 (List.not_mem_nil c)
    · exact List.Pairwise.cons (fun a ha => absurd ha (List.not_mem_nil a))
        List.Pairwise.nil
  exact ⟨hwf, by decide, C9_theorem raws9 s9 450 hwf (by decide)⟩
